import Mathlib

/-!
Verification of the TOON codec (Go package `toon`): a shallow embedding of the
encoder and the indentation-driven structural decoder, together with theorems
settling the frozen claims about the specification.

Modelling conventions:
* Go strings are embedded as `List Char` (`Str`); all evaluated inputs are
  ASCII, where Go's byte-wise indexing and Lean's character lists coincide.
* Go's `int`/`int64` are embedded as `Int` (or `Nat` where the Go value is a
  count or position that is provably non-negative).
* `Value = interface{}` is embedded as the inductive `Val`.  `float64` values
  are outside the verified fragment: the decoder represents a successfully
  parsed float literal by its text (`Val.floatLit`), and no theorem below
  evaluates a float.  Go `map[string]Value` is embedded as an association
  list with unique keys (Go's map iteration order is unspecified; the
  embedding uses insertion order, and the encoder sorts keys exactly as the
  source does).
* Fallible Go functions returning `(T, error)` become `Except`-valued
  functions.
* The mutually recursive structural-parser methods carry an explicit fuel
  parameter so that every definition is structurally recursive and reduces
  inside the kernel; `decode` supplies fuel that dominates the parser's
  actual call count on the input.
-/

namespace Toon

/-- Go strings, embedded as character lists. -/
abbrev Str := List Char

/-- Character list of a Lean string literal. -/
def chars (s : String) : Str := s.data

/-- `strings.HasPrefix`. -/
def startsWith (s pre : Str) : Bool := pre.isPrefixOf s

/-- `strings.HasSuffix`. -/
def endsWith (s suf : Str) : Bool := suf.isSuffixOf s

/-- Substring test `strings.Contains`, specialised to a single character
(every use in the source searches for a one-character pattern). -/
def containsChar (s : Str) (c : Char) : Bool := s.any (· = c)

/-- `strings.Contains` for general patterns. -/
def containsStr : Str → Str → Bool
  | _, [] => true
  | [], _ => false
  | c :: cs, pat => if startsWith (c :: cs) pat then true else containsStr cs pat

/-- Characters Go's `strings.TrimSpace` removes (`unicode.IsSpace`, ASCII part;
all evaluated inputs are ASCII). -/
def isSpaceChar (c : Char) : Bool :=
  c = ' ' || c = '\t' || c = '\n' || c = (Char.ofNat 11) || c = (Char.ofNat 12) || c = '\r'

/-- `strings.TrimSpace`. -/
def trimSpace (s : Str) : Str :=
  ((s.dropWhile isSpaceChar).reverse.dropWhile isSpaceChar).reverse

/-- `strings.TrimLeft(s, " \t")`. -/
def trimLeftSpaceTab (s : Str) : Str :=
  s.dropWhile (fun c => c = ' ' || c = '\t')

/-- `strings.TrimPrefix`. -/
def trimLeadingMatch (s pre : Str) : Str :=
  if startsWith s pre then s.drop pre.length else s

/-- `strings.Split(s, sep)` for a one-character separator. -/
def splitOnChar (sep : Char) : Str → List Str
  | [] => [[]]
  | c :: cs =>
    if c = sep then [] :: splitOnChar sep cs
    else
      match splitOnChar sep cs with
      | [] => [[c]]
      | p :: ps => (c :: p) :: ps

/-- `strings.SplitN(s, sep, 2)` for a one-character separator. -/
def splitN2 (sep : Char) : Str → List Str
  | [] => [[]]
  | c :: cs =>
    if c = sep then [[], cs]
    else
      match splitN2 sep cs with
      | [] => [[c]]
      | p :: ps => (c :: p) :: ps

/-- `strings.Join` / `strings.Repeat`-style concatenation with separator. -/
def joinWith (sep : Str) : List Str → Str
  | [] => []
  | [s] => s
  | s :: rest => s ++ sep ++ joinWith sep rest

/-- `strings.Repeat(" ", n)`. -/
def spaces (n : Nat) : Str := List.replicate n ' '

/-- `strings.ReplaceAll` (fuelled by the source length; the pattern is
non-empty at every call site). -/
def replaceAllAux (pat rep : Str) : Nat → Str → Str
  | 0, s => s
  | _ + 1, [] => []
  | fuel + 1, c :: cs =>
    if startsWith (c :: cs) pat then rep ++ replaceAllAux pat rep fuel ((c :: cs).drop pat.length)
    else c :: replaceAllAux pat rep fuel cs

def replaceAll (s pat rep : Str) : Str := replaceAllAux pat rep (s.length + 1) s

/-- Digit test (`ch >= '0' && ch <= '9'`). -/
def isDigitChar (c : Char) : Bool := '0' ≤ c && c ≤ '9'

/-- ASCII letter test (source `isLetter`). -/
def isLetterChar (c : Char) : Bool :=
  ('A' ≤ c && c ≤ 'Z') || ('a' ≤ c && c ≤ 'z')

/-- Decimal digits of a natural number, most significant first
(`strconv.Itoa` on a non-negative value). -/
def natToChars (n : Nat) : Str :=
  (Nat.toDigits 10 n)

/-- `strconv.FormatInt(i, 10)`. -/
def intToChars (i : Int) : Str :=
  if i < 0 then '-' :: natToChars i.natAbs else natToChars i.natAbs

/-- Numeric value of a digit string (helper for the `strconv.Atoi` model). -/
def digitsToNat : Str → Nat
  | [] => 0
  | ds => ds.foldl (fun acc c => acc * 10 + (c.toNat - '0'.toNat)) 0

/-- Model of `strconv.Atoi` as used on the all-digit strings produced by
`extractNumericLength`; the error is discarded at every call site
(`expectedLen, _ := strconv.Atoi(numStr)`), and on overflow Go returns the
clamped value `math.MaxInt64`. -/
def atoiClamped (s : Str) : Nat :=
  min (digitsToNat s) (2 ^ 63 - 1)

/-- Model of `strconv.ParseInt(s, 10, 64)`: optional sign, at least one
digit, no other characters, value within the signed 64-bit range. -/
def parseGoInt (s : Str) : Option Int :=
  let (neg, ds) :=
    match s with
    | '-' :: rest => (true, rest)
    | '+' :: rest => (false, rest)
    | _ => (false, s)
  if ds = [] || !(ds.all isDigitChar) then none
  else
    let v : Int := (digitsToNat ds : Int)
    let v := if neg then -v else v
    if v < -(2 ^ 63) || v > 2 ^ 63 - 1 then none else some v

/-- Case-insensitive ASCII comparison (helper for the `ParseFloat` model). -/
def lowerChar (c : Char) : Char :=
  if 'A' ≤ c && c ≤ 'Z' then Char.ofNat (c.toNat + 32) else c

/-- Model of the syntax accepted by `strconv.ParseFloat(s, 64)`: an optional
sign followed by `inf`, `infinity` or `nan` (case-insensitively), or a
decimal mantissa (digits, optionally with one point, at least one digit
overall) with an optional decimal exponent, or a hexadecimal mantissa with a
mandatory binary exponent.  Underscores are accepted only between digits, as
in Go numeric literals.  Only syntax acceptance is modelled — the numeric
value of a float is outside the verified fragment. -/
def goFloatDigits (hex : Bool) : Str → Bool × Str
  | [] => (false, [])
  | c :: cs =>
    let dig := if hex then isDigitChar c || ('a' ≤ lowerChar c && lowerChar c ≤ 'f') else isDigitChar c
    if dig then
      match goFloatDigitsRest hex cs with
      | rest => (true, rest)
    else (false, c :: cs)
where
  goFloatDigitsRest (hex : Bool) : Str → Str
    | [] => []
    | c :: cs =>
      let dig := if hex then isDigitChar c || ('a' ≤ lowerChar c && lowerChar c ≤ 'f') else isDigitChar c
      if dig then goFloatDigitsRest hex cs
      else if c = '_' then
        match cs with
        | c2 :: _ =>
          let dig2 := if hex then isDigitChar c2 || ('a' ≤ lowerChar c2 && lowerChar c2 ≤ 'f') else isDigitChar c2
          if dig2 then goFloatDigitsRest hex cs else c :: cs
        | [] => c :: cs
      else c :: cs

def goFloatAccepts (s : Str) : Bool :=
  let (body) :=
    match s with
    | '+' :: rest => rest
    | '-' :: rest => rest
    | _ => s
  let low := body.map lowerChar
  if low = chars "inf" || low = chars "infinity" || low = chars "nan" then true
  else if startsWith low (chars "0x") then
    -- hexadecimal mantissa with mandatory 'p' exponent
    let afterPre := body.drop 2
    let (d1, r1) := goFloatDigits true afterPre
    let (d2, r2) :=
      match r1 with
      | '.' :: rest => goFloatDigits true rest
      | _ => (false, r1)
    if !(d1 || d2) then false
    else
      match r2 with
      | p :: rest =>
        if lowerChar p = 'p' then
          let rest :=
            match rest with
            | '+' :: r => r
            | '-' :: r => r
            | r => r
          let (de, re) := goFloatDigits false rest
          de && re = []
        else false
      | [] => false
  else
    let (d1, r1) := goFloatDigits false body
    let (d2, r2) :=
      match r1 with
      | '.' :: rest =>
        match goFloatDigits false rest with
        | (ok, r) => (ok || d1, r)
      | _ => (d1, r1)
    if !(d1 || d2) then false
    else
      match r2 with
      | e :: rest =>
        if lowerChar e = 'e' then
          let rest :=
            match rest with
            | '+' :: r => r
            | '-' :: r => r
            | r => r
          let (de, re) := goFloatDigits false rest
          de && re = []
        else false
      | [] => true

/-! ## Value model and option/error types

`Value interface{}` with valid inhabitants nil, bool, int64, float64, string,
`[]Value`, `map[string]Value` (declarations documented in the repository);
mappings are embedded as insertion-ordered association lists with unique keys.
`float64` values are carried as their literal text (see module docstring). -/

inductive Val where
  | null : Val
  | bool (b : Bool) : Val
  | int (n : Int) : Val
  | floatLit (s : Str) : Val
  | str (s : Str) : Val
  | arr (elems : List Val) : Val
  | map (entries : List (Str × Val)) : Val

/-- Association-list mapping (embedding of Go `map[string]Value`). -/
abbrev Mapping := List (Str × Val)

/-- Go map read `v, ok := m[k]`. -/
def mapGet (m : Mapping) (k : Str) : Option Val :=
  (m.find? (fun p => p.1 = k)).map (·.2)

/-- Go map write `m[k] = v`: overwrite in place if present, else insert. -/
def mapSet (m : Mapping) (k : Str) (v : Val) : Mapping :=
  if m.any (fun p => p.1 = k) then
    m.map (fun p => if p.1 = k then (k, v) else p)
  else m ++ [(k, v)]

/-- `DecodeError` (message plus position/context fields). -/
structure DecodeError where
  message : Str
  input : Str := []
  line : Nat := 0
  column : Nat := 0
  token : Str := []
  context : Str := []
deriving DecidableEq

/-- `EncodeError` (the offending value is carried when the source sets it). -/
structure EncodeError where
  message : Str
  value : Option Val := none

/-- `DecodeOptions`: `Keys` (only `StringKeys = 0` exists), `Strict`,
`IndentSize`, `ExpandPaths` (a Go string: "off" / "safe" / ...). -/
structure DecodeOptions where
  keys : Nat := 0
  strict : Bool := false
  indentSize : Int := 0
  expandPaths : Str := []
deriving DecidableEq

/-- `EncodeOptions`. -/
structure EncodeOptions where
  indent : Int := 0
  delimiter : Str := []
  lengthMarker : Str := []
  flattenPaths : Bool := false
  flattenDepth : Int := 0
  strict : Bool := false
deriving DecidableEq

/-! ## Format constants (`constants.go`) -/

def colonS : Str := chars ":"
def commaS : Str := chars ","
def spaceS : Str := chars " "
def pipeS : Str := chars "|"
def tabS : Str := chars "\t"
def newlineS : Str := chars "\n"
def openBracketS : Str := chars "["
def closeBracketS : Str := chars "]"
def openBraceS : Str := chars "\x7b"
def closeBraceS : Str := chars "\x7d"
def doubleQuoteS : Str := chars "\""
def nullLiteral : Str := chars "null"
def trueLiteral : Str := chars "true"
def falseLiteral : Str := chars "false"
def listItemMarkerS : Str := chars "-"
def listItemLead : Str := chars "- "
def defaultIndent : Int := 2
def defaultDelimiter : Str := commaS

/-- `structureChars` — characters forcing quoting (comma handled separately). -/
def structureChars : List Str :=
  [colonS, openBracketS, closeBracketS, openBraceS, closeBraceS,
   chars "(", chars ")", doubleQuoteS, chars "\\"]

/-- `controlChars` — characters needing escaping. -/
def controlChars : List Str :=
  [chars "\n", chars "\r", chars "\t", [Char.ofNat 8], [Char.ofNat 12]]

/-! ## Option resolution (`api.go`) -/

/-- `getDecodeOptions`: nil resolves to strict defaults, a supplied struct is
copied with only `IndentSize`/`ExpandPaths` defaulted. -/
def getDecodeOptions : Option DecodeOptions → DecodeOptions
  | none =>
    { keys := 0, strict := true, indentSize := defaultIndent, expandPaths := chars "off" }
  | some opts =>
    let result : DecodeOptions :=
      { keys := opts.keys, strict := opts.strict, indentSize := opts.indentSize,
        expandPaths := opts.expandPaths }
    let result := if result.indentSize = 0 then { result with indentSize := defaultIndent } else result
    if result.expandPaths = [] then { result with expandPaths := chars "off" } else result

/-- `getEncodeOptions` (the `FlattenDepth = -1` case defaults to 9999 when
flattening is enabled). -/
def getEncodeOptions : Option EncodeOptions → EncodeOptions
  | none => getEncodeOptionsAux {}
  | some opts => getEncodeOptionsAux opts
where
  getEncodeOptionsAux (opts : EncodeOptions) : EncodeOptions :=
    let result : EncodeOptions :=
      { indent := opts.indent, delimiter := opts.delimiter, lengthMarker := opts.lengthMarker,
        flattenPaths := opts.flattenPaths, flattenDepth := opts.flattenDepth,
        strict := opts.strict }
    let result :=
      if result.flattenPaths && result.flattenDepth = -1 then { result with flattenDepth := 9999 }
      else result
    let result := if result.indent = 0 then { result with indent := defaultIndent } else result
    if result.delimiter = [] then { result with delimiter := defaultDelimiter } else result

/-- `validDelimiters` and `isValidDelimiter`. -/
def validDelimiters : List Str := [commaS, tabS, pipeS]

def isValidDelimiter (d : Str) : Bool := validDelimiters.any (· = d)

/-- `validateEncodeOptions`. -/
def validateEncodeOptions (opts : Option EncodeOptions) : Except EncodeError Unit :=
  match opts with
  | none => .ok ()
  | some opts =>
    if opts.indent < 0 then
      .error { message := chars "indent must be non-negative", value := some (.int opts.indent) }
    else if opts.delimiter ≠ [] && !isValidDelimiter opts.delimiter then
      .error { message := chars "invalid delimiter", value := some (.str opts.delimiter) }
    else .ok ()

/-! ## Primitive codec (`primitives.go`) -/

/-- `hasLeadingTrailingSpaces`. -/
def hasLeadingTrailingSpaces (s : Str) : Bool :=
  startsWith s spaceS || endsWith s spaceS

/-- `isReservedLiteral`. -/
def isReservedLiteral (s : Str) : Bool :=
  s = trueLiteral || s = falseLiteral || s = nullLiteral

/-- `containsStructureChars`. -/
def containsStructureChars (s : Str) : Bool :=
  structureChars.any (fun c => containsStr s c)

/-- `containsControlChars`. -/
def containsControlChars (s : Str) : Bool :=
  controlChars.any (fun c => containsStr s c)

/-- `looksLikeNumber`: a leading zero followed by a digit counts as a number
for quoting purposes, otherwise the string counts as a number exactly when
`strconv.ParseFloat` accepts it. -/
def looksLikeNumber (s : Str) : Bool :=
  match s with
  | c0 :: c1 :: _ =>
    if c0 = '0' && isDigitChar c1 then true else goFloatAccepts s
  | _ => goFloatAccepts s

/-- `needsQuoting` (the checks run in source order; any hit quotes). -/
def needsQuoting (s : Str) (delimiter : Str) : Bool :=
  if s = [] then true
  else
    hasLeadingTrailingSpaces s || isReservedLiteral s || looksLikeNumber s ||
    containsStructureChars s || containsStr s delimiter || containsControlChars s ||
    startsWith s listItemMarkerS

/-- `escapeString`: backslashes first, then quote, tab, newline, carriage
return (chained `strings.ReplaceAll`). -/
def escapeString (s : Str) : Str :=
  let r := replaceAll s (chars "\\") (chars "\\\\")
  let r := replaceAll r (chars "\"") (chars "\\\"")
  let r := replaceAll r (chars "\t") (chars "\\t")
  let r := replaceAll r (chars "\n") (chars "\\n")
  replaceAll r (chars "\r") (chars "\\r")

/-- `encodeString`. -/
def encodeString (s : Str) (delimiter : Str) : Str :=
  if needsQuoting s delimiter then doubleQuoteS ++ escapeString s ++ doubleQuoteS
  else s

/-- `isValidFirstChar` / `isValidKeyChar` / `safeKey` (keys must match
`^[A-Za-z_][A-Za-z0-9_.]*$` to stay unquoted). -/
def isValidFirstChar (c : Char) : Bool := isLetterChar c || c = '_'

def isValidKeyChar (c : Char) : Bool :=
  isLetterChar c || isDigitChar c || c = '_' || c = '.'

def safeKey : Str → Bool
  | [] => false
  | c :: cs => isValidFirstChar c && cs.all isValidKeyChar

/-- `encodeKey`. -/
def encodeKey (k : Str) : Str :=
  if safeKey k then k else doubleQuoteS ++ escapeString k ++ doubleQuoteS

/-- `encodePrimitive` on the embedded fragment (nil, bool, int64, string;
the uint and float branches concern host types outside the `Val` model). -/
def encodePrimitive (v : Val) (delimiter : Str) : Except EncodeError Str :=
  match v with
  | .null => .ok nullLiteral
  | .bool b => .ok (if b then trueLiteral else falseLiteral)
  | .str s => .ok (encodeString s delimiter)
  | .int i => .ok (intToChars i)
  | .floatLit _ => .error { message := chars "unsupported primitive type", value := some v }
  | _ => .error { message := chars "unsupported primitive type", value := some v }

/-- `validateAndUnescape`: decode escape sequences, rejecting invalid or
dangling escapes.  (The source's final trailing-backslash recheck can never
fire after a successful scan; it is translated nonetheless.) -/
def validateAndUnescapeAux : Str → Except DecodeError Str
  | [] => .ok []
  | '\\' :: rest =>
    match rest with
    | [] => .error { message := chars "unterminated string: unexpected end in escape sequence" }
    | c :: rest2 =>
      if c = '\\' || c = '"' || c = 'n' || c = 'r' || c = 't' then
        let decoded : Char :=
          if c = '\\' then '\\' else if c = '"' then '"'
          else if c = 'n' then '\n' else if c = 'r' then '\r' else '\t'
        (validateAndUnescapeAux rest2).map (decoded :: ·)
      else .error { message := chars "invalid escape sequence: \\" ++ [c] }
  | c :: rest => (validateAndUnescapeAux rest).map (c :: ·)

def validateAndUnescape (s : Str) : Except DecodeError Str := do
  let r ← validateAndUnescapeAux s
  let trailing := (s.reverse.takeWhile (· = '\\')).length
  if trailing % 2 = 1 then
    .error { message := chars "unterminated string: odd number of trailing backslashes" }
  else .ok r

/-- `parseNumber`: integer first (leading-zero strings excluded), then float;
a successful float parse is recorded as its literal text. -/
def parseNumber (s : Str) : Option Val :=
  let leadingZero :=
    match s with
    | c0 :: c1 :: _ => c0 = '0' && isDigitChar c1
    | _ => false
  if leadingZero then none
  else
    match parseGoInt s with
    | some i => some (.int i)
    | none => if goFloatAccepts s then some (.floatLit s) else none

/-- `parseValue`: reserved literals, quoted strings (with unescaping),
numbers, otherwise a bare string. -/
def parseValue (s0 : Str) : Except DecodeError Val :=
  let s := trimSpace s0
  if s = [] then .ok (.str [])
  else if s = nullLiteral then .ok .null
  else if s = trueLiteral then .ok (.bool true)
  else if s = falseLiteral then .ok (.bool false)
  else if startsWith s doubleQuoteS then
    if !endsWith s doubleQuoteS || s.length < 2 then
      .error { message := chars "unterminated string: missing closing quote" }
    else
      (validateAndUnescape ((s.drop 1).take (s.length - 2))).map .str
  else
    match parseNumber s with
    | some v => .ok v
    | none => .ok (.str s)

/-! ## Value utilities (`utils.go`), restricted to the embedded `Val` model -/

/-- `isPrimitive`: nil, bool, numbers, strings. -/
def isPrimitive : Val → Bool
  | .null | .bool _ | .int _ | .floatLit _ | .str _ => true
  | _ => false

/-- `isMap`. -/
def isMap : Val → Bool
  | .map _ => true
  | _ => false

/-- `isList`. -/
def isList : Val → Bool
  | .arr _ => true
  | _ => false

/-- `allPrimitives`. -/
def allPrimitives : Val → Bool
  | .arr xs => xs.all isPrimitive
  | _ => false

/-- `allMaps`. -/
def allMaps : Val → Bool
  | .arr xs => xs.all isMap
  | _ => false

/-- Lexicographic (byte-wise in Go, code-point-wise here; identical on
ASCII) strict order on strings, the comparison used by `sortStrings`. -/
def lexLt : Str → Str → Bool
  | [], [] => false
  | [], _ :: _ => true
  | _ :: _, [] => false
  | a :: as, b :: bs =>
    if a.toNat < b.toNat then true
    else if b.toNat < a.toNat then false
    else lexLt as bs

/-- `sortStrings`: the source's in-place exchange sort; embedded as an
insertion sort computing the same ascending lexicographic order. -/
def insertSorted (x : Str) : List Str → List Str
  | [] => [x]
  | y :: ys => if lexLt y x then y :: insertSorted x ys else x :: y :: ys

def sortStrings (l : List Str) : List Str := l.foldr insertSorted []

/-- `getMapKeys`: the (sorted) key list of a mapping, `[]` otherwise. -/
def getMapKeys : Val → List Str
  | .map kvs => sortStrings (kvs.map (·.1))
  | _ => []

/-- `sameStringSlice` (order-independent comparison via a membership set). -/
def sameStringSlice (a b : List Str) : Bool :=
  a.length = b.length && b.all (fun s => a.any (· = s))

/-- `sameKeys`. -/
def sameKeys : Val → Bool
  | .arr [] => true
  | .arr (x :: rest) =>
    if !isMap x then false
    else
      let firstKeys := getMapKeys x
      if firstKeys = [] then true
      else rest.all (fun item => isMap item && sameStringSlice firstKeys (getMapKeys item))
  | _ => false

/-- `sortKeysWithArraysFirst`: array-valued keys first, each group sorted. -/
def sortKeysWithArraysFirst (keys : List Str) (kvs : Mapping) : List Str :=
  let arrayKeys := keys.filter (fun k => (mapGet kvs k).elim false isList)
  let otherKeys := keys.filter (fun k => !(mapGet kvs k).elim false isList)
  sortStrings arrayKeys ++ sortStrings otherKeys

/-- `normalize` restricted to the already-normalised `Val` fragment: the
host-value numeric narrowing concerns Go types outside the model, so on
`Val` the walk is the identity on scalars and recursion on containers
(float normalisation is outside the fragment).  Fuelled for kernel
computability; the fuel supplied by `marshal` dominates every value depth
in this development. -/
def normalizeF (fuel : Nat) (v : Val) : Val :=
  match fuel with
  | 0 => v
  | fuel + 1 =>
    match v with
    | .null => .null
    | .bool b => .bool b
    | .int n => .int n
    | .floatLit s => .floatLit s
    | .str s => .str s
    | .arr xs => .arr (xs.map (normalizeF fuel))
    | .map kvs => .map (kvs.map (fun p => (p.1, normalizeF fuel p.2)))

def normalize (v : Val) : Val := normalizeF 1000 v

/-! ## Writer (`writer.go`) -/

structure Writer where
  buf : Str
  indentStr : Str
  indentSize : Int

/-- `newWriter` (indent string of `indentSize` spaces; `strings.Repeat`
rejects negative counts, which option validation rules out). -/
def newWriter (indentSize : Int) : Writer :=
  { buf := [], indentStr := spaces indentSize.toNat, indentSize := indentSize }

/-- Repeated indent: the source's `for i := 0; i < depth; i++` loop, which
writes nothing for non-positive depth. -/
def indentTimes (ind : Str) (depth : Int) : Str :=
  joinWith [] (List.replicate depth.toNat ind)

/-- `writer.push`. -/
def Writer.push (w : Writer) (line : Str) (depth : Int) : Writer :=
  let buf := if w.buf.length > 0 then w.buf ++ newlineS else w.buf
  { w with buf := buf ++ indentTimes w.indentStr depth ++ line }

/-- `writer.pushRaw`. -/
def Writer.pushRaw (w : Writer) (content : Str) : Writer :=
  { w with buf := w.buf ++ content }

/-! ## Array format selection (`arrays.go`, detection side) -/

inductive ArrayFormat where
  | empty | inline | tabular | list
deriving DecidableEq

/-- The per-element all-primitive-values check of `detectArrayFormat`'s
inner loop (elements that are not mappings are skipped by the loop). -/
def mapValuesAllPrim : Val → Bool
  | .map kvs => kvs.all (fun p => isPrimitive p.2)
  | _ => true

/-- `detectArrayFormat` over the sequence's elements. -/
def detectArrayFormat (xs : List Val) : ArrayFormat :=
  if xs.length = 0 then .empty
  else if allPrimitives (.arr xs) then .inline
  else if allMaps (.arr xs) && sameKeys (.arr xs) then
    if xs.all mapValuesAllPrim then .tabular else .list
  else .list

/-- `formatLengthMarker`. -/
def formatLengthMarker (length : Nat) (marker : Str) : Str :=
  if marker = [] then natToChars length else marker ++ natToChars length

/-- `encodeValueNil`. -/
def encodeValueNil (w : Writer) (key : Str) (depth : Int) : Writer :=
  if key ≠ [] then w.push (key ++ colonS ++ spaceS ++ nullLiteral) depth
  else w.push nullLiteral depth

/-- `encodeValuePrimitive` (a root primitive with an empty buffer is written
raw, without indentation). -/
def encodeValuePrimitive (w : Writer) (key : Str) (v : Val) (depth : Int)
    (opts : EncodeOptions) : Except EncodeError Writer :=
  match encodePrimitive v opts.delimiter with
  | .error e => .error e
  | .ok encoded =>
    if key ≠ [] then .ok (w.push (key ++ colonS ++ spaceS ++ encoded) depth)
    else if depth = 0 && w.buf.length = 0 then .ok (w.pushRaw encoded)
    else .ok (w.push encoded depth)

/-- `encodeEmptyArray` (`key[0]:`, no trailing space). -/
def encodeEmptyArray (w : Writer) (key : Str) (depth : Int) (opts : EncodeOptions) : Writer :=
  let lengthMarker := formatLengthMarker 0 opts.lengthMarker
  if key ≠ [] then w.push (key ++ openBracketS ++ lengthMarker ++ closeBracketS ++ colonS) depth
  else w.push (openBracketS ++ lengthMarker ++ closeBracketS ++ colonS) depth

/-- `encodeInlineArray`. -/
def encodeInlineArray (w : Writer) (key : Str) (xs : List Val) (depth : Int)
    (opts : EncodeOptions) : Except EncodeError Writer :=
  let lengthMarker := formatLengthMarker xs.length opts.lengthMarker
  let delimiterMarker := if opts.delimiter ≠ commaS then opts.delimiter else []
  match xs.mapM (fun x => encodePrimitive x opts.delimiter) with
  | .error e => .error e
  | .ok values =>
    let joined := joinWith opts.delimiter values
    let line :=
      if key ≠ [] then
        key ++ openBracketS ++ lengthMarker ++ delimiterMarker ++ closeBracketS ++ colonS ++
          spaceS ++ joined
      else
        openBracketS ++ lengthMarker ++ delimiterMarker ++ closeBracketS ++ colonS ++
          spaceS ++ joined
    .ok (w.push line depth)

/-- `encodeTabularArray`: `key[n]{sorted,keys}:` header plus one delimited
row per element. -/
def encodeTabularArray (w : Writer) (key : Str) (xs : List Val) (depth : Int)
    (opts : EncodeOptions) : Except EncodeError Writer :=
  match xs with
  | [] => .ok (encodeEmptyArray w key depth opts)
  | first :: _ =>
    let keys := getMapKeys first
    let lengthMarker := formatLengthMarker xs.length opts.lengthMarker
    let delimiterMarker := if opts.delimiter ≠ commaS then opts.delimiter else []
    let fields := joinWith opts.delimiter (keys.map encodeKey)
    let header :=
      if key ≠ [] then
        key ++ openBracketS ++ lengthMarker ++ delimiterMarker ++ closeBracketS ++
          openBraceS ++ fields ++ closeBraceS ++ colonS
      else
        openBracketS ++ lengthMarker ++ delimiterMarker ++ closeBracketS ++
          openBraceS ++ fields ++ closeBraceS ++ colonS
    let w := w.push header depth
    encodeTabularRowsOut w xs keys depth opts
where
  encodeTabularRowsOut (w : Writer) (items : List Val) (keys : List Str) (depth : Int)
      (opts : EncodeOptions) : Except EncodeError Writer :=
    match items with
    | [] => .ok w
    | item :: rest =>
      let kvs := match item with | .map kvs => kvs | _ => []
      match keys.mapM (fun k => encodePrimitive ((mapGet kvs k).getD .null) opts.delimiter) with
      | .error e => .error e
      | .ok values =>
        encodeTabularRowsOut (w.push (joinWith opts.delimiter values) (depth + 1)) rest keys depth opts

/-! ## Encoder (`encode.go`, `objects.go`, `arrays.go`)

The mutual recursion over nested values carries fuel; `marshal` supplies a
constant that dominates the nesting depth of every value evaluated below. -/

mutual

/-- `encodeValue`. -/
def encodeValue (fuel : Nat) (w : Writer) (key : Str) (v : Val) (depth : Int)
    (opts : EncodeOptions) : Except EncodeError Writer :=
  match fuel with
  | 0 => .error { message := chars "fuel exhausted" }
  | fuel + 1 =>
    match v with
    | .null => .ok (encodeValueNil w key depth)
    | _ =>
      if isPrimitive v then encodeValuePrimitive w key v depth opts
      else if isMap v then encodeValueMap fuel w key v depth opts
      else if isList v then encodeArray fuel w key v depth opts
      else .error { message := chars "unsupported type", value := some v }

/-- `encodeValueMap` (no `OrderedMap` in the embedded value model; the
flattening branch applies only at the root). -/
def encodeValueMap (fuel : Nat) (w : Writer) (key : Str) (v : Val) (depth : Int)
    (opts : EncodeOptions) : Except EncodeError Writer :=
  match fuel with
  | 0 => .error { message := chars "fuel exhausted" }
  | fuel + 1 =>
    match v with
    | .map kvs =>
      if opts.flattenPaths && depth = 0 then
        match flattenObject fuel kvs [] 0 opts with
        | .error e => .error { e with message := chars "flatten failed: " ++ e.message }
        | .ok flattened =>
          encodeObject fuel w key (.map flattened) depth { opts with flattenPaths := false }
      else encodeObject fuel w key v depth opts
    | _ => .error { message := chars "unsupported map type", value := some v }

/-- `encodeObject`: sorted keys, `key:` header line for a named non-empty
mapping, recursive encoding of each entry. -/
def encodeObject (fuel : Nat) (w : Writer) (key : Str) (v : Val) (depth : Int)
    (opts : EncodeOptions) : Except EncodeError Writer :=
  match fuel with
  | 0 => .error { message := chars "fuel exhausted" }
  | fuel + 1 =>
    match v with
    | .map kvs =>
      let keys := sortStrings (kvs.map (·.1))
      if keys = [] then
        .ok (if key ≠ [] then w.push (key ++ colonS) depth else w)
      else
        let (w, depth) := if key ≠ [] then (w.push (key ++ colonS) depth, depth + 1) else (w, depth)
        encodeObjectEntries fuel w kvs keys depth opts
    | _ => .error { message := chars "not a map", value := some v }

/-- The entry loop of `encodeObject`. -/
def encodeObjectEntries (fuel : Nat) (w : Writer) (kvs : Mapping) (keys : List Str)
    (depth : Int) (opts : EncodeOptions) : Except EncodeError Writer :=
  match fuel with
  | 0 => .error { message := chars "fuel exhausted" }
  | fuel + 1 =>
    match keys with
    | [] => .ok w
    | k :: rest => do
      let mapValue := (mapGet kvs k).getD .null
      let w ← encodeValue fuel w (encodeKey k) mapValue depth opts
      encodeObjectEntries fuel w kvs rest depth opts

/-- `encodeArray`: dispatch on the detected array format. -/
def encodeArray (fuel : Nat) (w : Writer) (key : Str) (v : Val) (depth : Int)
    (opts : EncodeOptions) : Except EncodeError Writer :=
  match fuel with
  | 0 => .error { message := chars "fuel exhausted" }
  | fuel + 1 =>
    match v with
    | .arr xs =>
      match detectArrayFormat xs with
      | .empty => .ok (encodeEmptyArray w key depth opts)
      | .inline => encodeInlineArray w key xs depth opts
      | .tabular => encodeTabularArray w key xs depth opts
      | .list => encodeListArray fuel w key xs depth opts
    | _ => .error { message := chars "not an array", value := some v }

/-- `encodeListArray`: `key[n]:` header, one list item per element. -/
def encodeListArray (fuel : Nat) (w : Writer) (key : Str) (xs : List Val) (depth : Int)
    (opts : EncodeOptions) : Except EncodeError Writer :=
  match fuel with
  | 0 => .error { message := chars "fuel exhausted" }
  | fuel + 1 =>
    let lengthMarker := formatLengthMarker xs.length opts.lengthMarker
    let delimiterMarker := if opts.delimiter ≠ commaS then opts.delimiter else []
    let header :=
      if key ≠ [] then key ++ openBracketS ++ lengthMarker ++ delimiterMarker ++ closeBracketS ++ colonS
      else openBracketS ++ lengthMarker ++ delimiterMarker ++ closeBracketS ++ colonS
    encodeListArrayItems fuel (w.push header depth) xs (depth + 1) opts

/-- The item loop of `encodeListArray`. -/
def encodeListArrayItems (fuel : Nat) (w : Writer) (xs : List Val) (depth : Int)
    (opts : EncodeOptions) : Except EncodeError Writer :=
  match fuel with
  | 0 => .error { message := chars "fuel exhausted" }
  | fuel + 1 =>
    match xs with
    | [] => .ok w
    | item :: rest => do
      let w ← encodeListItem fuel w item depth opts
      encodeListArrayItems fuel w rest depth opts

/-- `encodeListItem` (the unused `isFirst` flag of the source is dropped). -/
def encodeListItem (fuel : Nat) (w : Writer) (item : Val) (depth : Int)
    (opts : EncodeOptions) : Except EncodeError Writer :=
  match fuel with
  | 0 => .error { message := chars "fuel exhausted" }
  | fuel + 1 =>
    if isPrimitive item then
      match encodePrimitive item opts.delimiter with
      | .error e => .error e
      | .ok encoded => .ok (w.push (listItemLead ++ encoded) depth)
    else if isList item then encodeListItemArray fuel w item depth opts
    else if isMap item then encodeListItemMap fuel w item depth opts
    else .error { message := chars "unsupported list item type", value := some item }

/-- `encodeListItemArray`. -/
def encodeListItemArray (fuel : Nat) (w : Writer) (item : Val) (depth : Int)
    (opts : EncodeOptions) : Except EncodeError Writer :=
  match fuel with
  | 0 => .error { message := chars "fuel exhausted" }
  | fuel + 1 =>
    match item with
    | .arr xs =>
      let delimiterMarker := if opts.delimiter ≠ commaS then opts.delimiter else []
      if xs.length = 0 then
        let lengthMarker := formatLengthMarker 0 opts.lengthMarker
        .ok (w.push (listItemLead ++ openBracketS ++ lengthMarker ++ delimiterMarker ++
              closeBracketS ++ colonS) depth)
      else if allPrimitives item then
        -- `encodeListItemInlineArray`
        let lengthMarker := formatLengthMarker xs.length opts.lengthMarker
        match xs.mapM (fun x => encodePrimitive x opts.delimiter) with
        | .error e => .error e
        | .ok values =>
          let joined := joinWith opts.delimiter values
          .ok (w.push (listItemLead ++ openBracketS ++ lengthMarker ++ delimiterMarker ++
                closeBracketS ++ colonS ++ spaceS ++ joined) depth)
      else
        -- `encodeListItemNestedArray`
        let lengthMarker := formatLengthMarker xs.length opts.lengthMarker
        let header := listItemLead ++ openBracketS ++ lengthMarker ++ delimiterMarker ++
              closeBracketS ++ colonS
        encodeListArrayItems fuel (w.push header depth) xs (depth + 1) opts
    | _ => .error { message := chars "not an array", value := some item }

/-- `encodeListItemMap`: first key inline after the hyphen, subsequent keys
re-aligned two columns right; array-valued keys come first. -/
def encodeListItemMap (fuel : Nat) (w : Writer) (item : Val) (depth : Int)
    (opts : EncodeOptions) : Except EncodeError Writer :=
  match fuel with
  | 0 => .error { message := chars "fuel exhausted" }
  | fuel + 1 =>
    match item with
    | .map kvs =>
      let keys := sortKeysWithArraysFirst (kvs.map (·.1)) kvs
      encodeListItemMapKeys fuel w kvs keys true depth opts
    | _ => .error { message := chars "not a map", value := some item }

/-- The key loop of `encodeListItemMap` (`idx == 0` selects the first-key
form). -/
def encodeListItemMapKeys (fuel : Nat) (w : Writer) (kvs : Mapping) (keys : List Str)
    (isFirstKey : Bool) (depth : Int) (opts : EncodeOptions) : Except EncodeError Writer :=
  match fuel with
  | 0 => .error { message := chars "fuel exhausted" }
  | fuel + 1 =>
    match keys with
    | [] => .ok w
    | k :: rest => do
      let val := (mapGet kvs k).getD .null
      let encodedKey := encodeKey k
      let w ←
        if isFirstKey then encodeListItemMapFirstKey fuel w encodedKey val depth opts
        else encodeListItemMapSubsequentKey fuel w encodedKey val depth 2 opts
      encodeListItemMapKeys fuel w kvs rest false depth opts

/-- `encodeListItemMapFirstKey`. -/
def encodeListItemMapFirstKey (fuel : Nat) (w : Writer) (encodedKey : Str) (val : Val)
    (depth : Int) (opts : EncodeOptions) : Except EncodeError Writer :=
  match fuel with
  | 0 => .error { message := chars "fuel exhausted" }
  | fuel + 1 =>
    if isPrimitive val then
      match encodePrimitive val opts.delimiter with
      | .error e => .error e
      | .ok encoded => .ok (w.push (listItemLead ++ encodedKey ++ colonS ++ spaceS ++ encoded) depth)
    else if isList val then encodeArray fuel w (listItemLead ++ encodedKey) val depth opts
    else
      encodeValue fuel (w.push (listItemLead ++ encodedKey ++ colonS) depth) [] val (depth + 1) opts

/-- `encodeListItemMapSubsequentKey` (alignment offset 2, Go integer
division for the effective depth). -/
def encodeListItemMapSubsequentKey (fuel : Nat) (w : Writer) (encodedKey : Str) (val : Val)
    (depth : Int) (alignmentOffset : Int) (opts : EncodeOptions) : Except EncodeError Writer :=
  match fuel with
  | 0 => .error { message := chars "fuel exhausted" }
  | fuel + 1 =>
    let baseIndent := depth * opts.indent
    let alignedLine := spaces (baseIndent + alignmentOffset).toNat ++ encodedKey
    let effectiveDepth := depth + alignmentOffset.tdiv opts.indent
    if isPrimitive val then
      match encodePrimitive val opts.delimiter with
      | .error e => .error e
      | .ok encoded => .ok (w.pushRaw (newlineS ++ alignedLine ++ colonS ++ spaceS ++ encoded))
    else if isList val then encodeArray fuel w alignedLine val depth opts
    else
      encodeValue fuel (w.pushRaw (newlineS ++ alignedLine ++ colonS)) [] val (effectiveDepth + 1) opts

/-- `flattenObject`: root-level folding of nested mappings into dotted keys
(Go iterates its unordered map; the embedding iterates in association
order). -/
def flattenObject (fuel : Nat) (obj : Mapping) (currentPath : Str) (depth : Int)
    (opts : EncodeOptions) : Except EncodeError Mapping :=
  match fuel with
  | 0 => .error { message := chars "fuel exhausted" }
  | fuel + 1 =>
    let literalKeys := obj.map (·.1)
    let hasCollision := obj.any (fun p =>
      match p.2 with
      | .map nested => (collectTempPaths fuel nested p.1).any (fun path => literalKeys.any (· = path))
      | _ => false)
    if hasCollision then
      if opts.strict then
        .error { message := chars "key collision: flattened path would conflict with existing literal key",
                 value := some (.map obj) }
      else .ok obj
    else flattenObjectEntries fuel obj [] currentPath depth opts

/-- The potential-path collector (`collectTemp`) of `flattenObject`. -/
def collectTempPaths (fuel : Nat) (m : Mapping) (prefixPath : Str) : List Str :=
  match fuel with
  | 0 => []
  | fuel + 1 =>
    m.flatMap (fun p =>
      let path := if prefixPath = [] then p.1 else prefixPath ++ chars "." ++ p.1
      path ::
        (match p.2 with
         | .map nested => collectTempPaths fuel nested path
         | _ => []))

/-- `containsQuotedKeys`: some key in the subtree needs quoting. -/
def containsQuotedKeys (fuel : Nat) (m : Mapping) : Bool :=
  match fuel with
  | 0 => false
  | fuel + 1 =>
    m.any (fun p =>
      !safeKey p.1 ||
        (match p.2 with
         | .map nested => containsQuotedKeys fuel nested
         | _ => false))

/-- The main entry loop of `flattenObject`. -/
def flattenObjectEntries (fuel : Nat) (entries : List (Str × Val)) (result : Mapping)
    (currentPath : Str) (depth : Int) (opts : EncodeOptions) : Except EncodeError Mapping :=
  match fuel with
  | 0 => .error { message := chars "fuel exhausted" }
  | fuel + 1 =>
    match entries with
    | [] => .ok result
    | (key, value) :: rest =>
      let isKeySafe := safeKey key
      let fullPath := if currentPath = [] then key else currentPath ++ chars "." ++ key
      let segmentCount : Nat :=
        if currentPath ≠ [] then (splitOnChar '.' currentPath).length + 1 else 1
      let shouldFlatten0 := isMap value && isKeySafe && opts.flattenDepth > 0 &&
        (segmentCount : Int) < opts.flattenDepth
      let shouldFlatten :=
        shouldFlatten0 &&
          (match value with
           | .map nested => !containsQuotedKeys fuel nested
           | _ => true)
      if shouldFlatten then
        match value with
        | .map nested =>
          if nested.length = 0 then
            if (mapGet result fullPath).isSome && opts.strict then
              .error { message := chars "key collision: " ++ fullPath,
                       value := mapGet result fullPath }
            else flattenObjectEntries fuel rest (mapSet result fullPath value) currentPath depth opts
          else do
            let flat ← flattenObject fuel nested fullPath (depth + 1) opts
            let result ← mergeFlattened fuel flat result opts
            flattenObjectEntries fuel rest result currentPath depth opts
        | _ => .error { message := chars "not a map", value := some value }
      else
        if (mapGet result fullPath).isSome && opts.strict then
          .error { message := chars "key collision: " ++ fullPath, value := mapGet result fullPath }
        else flattenObjectEntries fuel rest (mapSet result fullPath value) currentPath depth opts

/-- The nested-result merge loop of `flattenObject` (strict collisions
error, non-strict last value wins). -/
def mergeFlattened (fuel : Nat) (nested : List (Str × Val)) (result : Mapping)
    (opts : EncodeOptions) : Except EncodeError Mapping :=
  match fuel with
  | 0 => .error { message := chars "fuel exhausted" }
  | fuel + 1 =>
    match nested with
    | [] => .ok result
    | (k, v) :: rest =>
      if (mapGet result k).isSome && opts.strict then
        .error { message := chars "key collision: " ++ k, value := mapGet result k }
      else mergeFlattened fuel rest (mapSet result k v) opts

end

/-- `encode`: fresh writer, then `encodeValue` at the root (the fuel
constant dominates the nesting depth of every value evaluated in this
development). -/
def encode (v : Val) (opts : EncodeOptions) : Except EncodeError Str :=
  (encodeValue 1000 (newWriter opts.indent) [] v 0 opts).map (·.buf)

/-- `Marshal`: resolve options, validate, normalize, encode. -/
def marshal (v : Val) (opts : Option EncodeOptions) : Except EncodeError Str := do
  let ropts := getEncodeOptions opts
  let _ ← validateEncodeOptions opts
  encode (normalize v) ropts

/-! ## Token scanner (`decode_tokens.go`)

A single-line character cursor.  Go indexes bytes; on the ASCII inputs of
this development bytes and characters coincide.  The scanner's loops are
fuelled by the remaining input length, which bounds them exactly. -/

structure Parser where
  input : Str
  pos : Nat
  line : Nat
  column : Nat

instance : Inhabited Parser := ⟨⟨[], 0, 1, 1⟩⟩

/-- `newParser`. -/
def newParser (input : Str) : Parser := { input := input, pos := 0, line := 1, column := 1 }

/-- `parser.peek` (NUL at end of input, as in the source). -/
def Parser.peek (p : Parser) : Char :=
  match p.input.drop p.pos with
  | [] => Char.ofNat 0
  | c :: _ => c

/-- `parser.isEOF`. -/
def Parser.isEOF (p : Parser) : Bool := p.input.length ≤ p.pos

/-- `parser.advance`. -/
def Parser.advance (p : Parser) : Parser :=
  match p.input.drop p.pos with
  | [] => p
  | c :: _ =>
    if c = '\n' then { p with pos := p.pos + 1, line := p.line + 1, column := 1 }
    else { p with pos := p.pos + 1, column := p.column + 1 }

/-- `parser.skipWhitespace` (spaces and tabs). -/
def Parser.skipWhitespaceAux : Nat → Parser → Parser
  | 0, p => p
  | fuel + 1, p =>
    if p.peek = ' ' || p.peek = '\t' then Parser.skipWhitespaceAux fuel p.advance else p

def Parser.skipWhitespace (p : Parser) : Parser :=
  Parser.skipWhitespaceAux (p.input.length + 1) p

/-- `parser.error`: attach the current line as context. -/
def Parser.errAt (p : Parser) (msg : Str) : DecodeError :=
  let before := (p.input.take p.pos).reverse.takeWhile (· ≠ '\n') |>.reverse
  let after := (p.input.drop p.pos).takeWhile (· ≠ '\n')
  { message := msg, input := p.input, line := p.line, column := p.column,
    context := before ++ after }

/-- `parser.parseString`: scan a quoted string collecting the raw content
(escape pairs included), then `validateAndUnescape` it. -/
def Parser.parseStringAux : Nat → Parser → Bool → Str → Except DecodeError (Str × Parser)
  | 0, p, _, _ =>
    .error { message := chars "unterminated string: missing closing quote",
             input := p.input, line := p.line, column := p.column }
  | fuel + 1, p, escaped, raw =>
    if p.isEOF then
      .error { message := chars "unterminated string: missing closing quote",
               input := p.input, line := p.line, column := p.column }
    else
      let ch := p.peek
      if escaped then Parser.parseStringAux fuel p.advance false (raw ++ [ch])
      else if ch = '\\' then Parser.parseStringAux fuel p.advance true (raw ++ [ch])
      else if ch = '"' then
        let p := p.advance
        match validateAndUnescape raw with
        | .error e =>
          .error { message := e.message, input := p.input, line := p.line, column := p.column }
        | .ok unescaped => .ok (unescaped, p)
      else Parser.parseStringAux fuel p.advance false (raw ++ [ch])

def Parser.parseString (p : Parser) : Except DecodeError (Str × Parser) :=
  if p.peek ≠ '"' then .error (p.errAt (chars "expected opening quote"))
  else Parser.parseStringAux (p.input.length + 1) p.advance false []

/-- The unquoted-key scan shared by `parseKey` and `parseKeyWithQuoteInfo`
(reads until `:`, `[`, space, tab or newline). -/
def Parser.scanBareKey : Nat → Parser → Str → (Str × Parser)
  | 0, p, acc => (acc, p)
  | fuel + 1, p, acc =>
    if p.isEOF then (acc, p)
    else
      let ch := p.peek
      if ch = ':' || ch = '[' || ch = ' ' || ch = '\t' || ch = '\n' then (acc, p)
      else Parser.scanBareKey fuel p.advance (acc ++ [ch])

/-- `parser.parseKey`. -/
def Parser.parseKey (p : Parser) : Except DecodeError (Str × Parser) :=
  let p := p.skipWhitespace
  if p.peek = '"' then p.parseString
  else
    let (key, p) := Parser.scanBareKey (p.input.length + 1) p []
    if key = [] then .error (p.errAt (chars "expected key"))
    else .ok (key, p)

/-- `parser.parseKeyWithQuoteInfo`. -/
def Parser.parseKeyWithQuoteInfo (p : Parser) : Except DecodeError (Str × Bool × Parser) :=
  let p := p.skipWhitespace
  if p.peek = '"' then
    (p.parseString).map (fun (key, p) => (key, true, p))
  else
    let (key, p) := Parser.scanBareKey (p.input.length + 1) p []
    if key = [] then .error (p.errAt (chars "expected key"))
    else .ok (key, false, p)

/-- `parser.expect`. -/
def Parser.expect (p : Parser) (ch : Char) : Except DecodeError Parser :=
  let p := p.skipWhitespace
  if p.peek ≠ ch then
    .error (p.errAt (chars "expected '" ++ [ch] ++ chars "', got '" ++ [p.peek] ++ chars "'"))
  else .ok p.advance

/-! ## Line preprocessing (`structural_parser.go`) -/

structure LineInfo where
  content : Str
  indent : Nat
  lineNumber : Nat
  original : Str
  isBlank : Bool

instance : Inhabited LineInfo := ⟨⟨[], 0, 0, [], true⟩⟩

/-- `calculateIndent`: leading spaces count 1, leading tabs count 4. -/
def calculateIndent : Str → Nat
  | [] => 0
  | c :: rest =>
    if c = ' ' then 1 + calculateIndent rest
    else if c = '\t' then 4 + calculateIndent rest
    else 0

/-- `preprocessLines`: split on newline, tag lines, strip trailing blanks. -/
def preprocessLines (input : Str) : List LineInfo :=
  let rawLines := splitOnChar '\n' input
  let lines := rawLines.enum.map (fun (i, line) =>
    { content := trimLeftSpaceTab line
      indent := calculateIndent line
      lineNumber := i + 1
      original := line
      isBlank := trimSpace line = [] : LineInfo })
  (lines.reverse.dropWhile (·.isBlank)).reverse

/-- Indexed access `sp.lines[pos]` (every access in the source is guarded by
a bounds check). -/
def lineAt (lines : List LineInfo) (pos : Nat) : LineInfo :=
  (lines.get? pos).getD default

/-- `validateIndentation` (strict mode): no tabs in any non-blank line's
leading whitespace, and every non-zero indent a multiple of the configured
indent size (Go's truncated `%`). -/
def leadingWhitespaceOf (original : Str) : Str :=
  original.takeWhile (fun c => c = ' ' || c = '\t')

def validateIndentation (lines : List LineInfo) (indentSize : Int) : Except DecodeError Unit :=
  match lines with
  | [] => .ok ()
  | line :: rest =>
    if line.isBlank then validateIndentation rest indentSize
    else if containsChar (leadingWhitespaceOf line.original) '\t' then
      .error { message := chars "tab characters not allowed in indentation (strict mode)",
               line := line.lineNumber, context := line.original }
    else if line.indent > 0 && Int.tmod (line.indent : Int) indentSize ≠ 0 then
      .error { message := chars "indentation must be multiple of indent size (strict mode)",
               line := line.lineNumber, context := line.original }
    else validateIndentation rest indentSize

/-! ## Root-type detection -/

inductive RootType where
  | object | array | primitive
deriving DecidableEq

/-- `hasColonIndicatingObject`. -/
def hasColonIndicatingObject (content : Str) : Bool :=
  if !containsChar content ':' then false
  else if endsWith (trimSpace content) colonS then true
  else
    match splitN2 ':' content with
    | [before, after] => trimSpace after ≠ [] || containsChar before '['
    | _ => false

/-- The closing-quote scan of `detectQuotedLineType` (index 0 is the opening
quote; escapes are honoured). -/
def detectQuotedAux : Str → Bool → RootType
  | [], _ => .primitive
  | c :: rest, escaped =>
    if escaped then detectQuotedAux rest false
    else if c = '\\' then detectQuotedAux rest true
    else if c = '"' then
      let remaining := trimSpace rest
      if startsWith remaining colonS || startsWith remaining openBracketS then .object
      else .primitive
    else detectQuotedAux rest false

/-- `detectQuotedLineType`. -/
def detectQuotedLineType (content : Str) : RootType :=
  match content with
  | [] => .primitive
  | _ :: rest => detectQuotedAux rest false

/-- `detectSingleLineType`. -/
def detectSingleLineType (content : Str) : RootType :=
  if startsWith content doubleQuoteS then detectQuotedLineType content
  else if hasColonIndicatingObject content then .object
  else .primitive

/-- `detectRootType`. -/
def detectRootType (lines : List LineInfo) : RootType :=
  match lines with
  | [] => .object
  | firstLine :: rest =>
    if startsWith firstLine.content openBracketS then .array
    else if rest.isEmpty then detectSingleLineType firstLine.content
    else .object

/-! ## Structural-parser helpers (`structural_parser.go`) -/

inductive LineSkipAction where
  | parseThisLine | skipAndContinue | stopParsing
deriving DecidableEq

/-- `shouldSkipObjectLine`. -/
def shouldSkipObjectLine (line : LineInfo) (baseIndent : Nat) : LineSkipAction :=
  if line.isBlank then .skipAndContinue
  else if line.indent < baseIndent then .stopParsing
  else if line.indent > baseIndent then .skipAndContinue
  else .parseThisLine

/-- `getValueType` (type names used in conflict error messages).  The Go
source distinguishes `[]interface{}` ("array") from `[]Value` ("unknown");
both are `Val.arr` here and are rendered "array" — the distinction affects
only error-message selection on paths not exercised in this development. -/
def getValueType : Val → Str
  | .null => chars "null"
  | .map _ => chars "object"
  | .arr _ => chars "array"
  | .str _ => chars "string"
  | .int _ => chars "number"
  | .floatLit _ => chars "number"
  | .bool _ => chars "boolean"

/-- `isValidIdentifier` (decode side): `[A-Za-z_][A-Za-z0-9_]*` — unlike the
encoder's `safeKey`, dots are not allowed. -/
def isValidIdentifier : Str → Bool
  | [] => false
  | c :: cs =>
    (isLetterChar c || c = '_') &&
      cs.all (fun ch => isLetterChar ch || isDigitChar ch || ch = '_')

/-- `isExpandablePath`: every dot-segment is a valid identifier. -/
def isExpandablePath (path : Str) : Bool :=
  (splitOnChar '.' path).all isValidIdentifier

/-- `checkKeyAssignmentConflict` (strict mode, final path segment). -/
def checkKeyAssignmentConflict (target : Mapping) (key : Str) (value : Val) :
    Except DecodeError Unit :=
  match mapGet target key with
  | none => .ok ()
  | some existing =>
    let existingType := getValueType existing
    let newType := getValueType value
    if existingType ≠ newType && existingType ≠ chars "null" && newType ≠ chars "null" then
      .error { message := chars "path expansion conflict: key already exists with type " ++
               existingType ++ chars ", cannot assign type " ++ newType }
    else .ok ()

/-- `assignKeyWithConflictCheck`: plain map assignment, with an
object-overwrite guard under strict mode with path expansion enabled. -/
def assignKeyWithConflictCheck (opts : DecodeOptions) (key : Str) (value : Val)
    (result : Mapping) : Except DecodeError Mapping :=
  if opts.strict && opts.expandPaths = chars "safe" then
    match mapGet result key with
    | some existing =>
      let existingType := getValueType existing
      let newType := getValueType value
      if existingType = chars "object" && newType ≠ chars "object" && newType ≠ chars "null" then
        .error { message := chars "path expansion conflict: key conflicts with expanded path (type " ++
                 newType ++ chars " cannot overwrite " ++ existingType ++ chars ")" }
      else .ok (mapSet result key value)
    | none => .ok (mapSet result key value)
  else .ok (mapSet result key value)

/-- `handleTrailingDotInPath` (a path ending in `.` yields an empty array). -/
def handleTrailingDotInPath (parts : List Str) (value : Val) : List Str × Val :=
  match parts.getLast? with
  | some [] =>
    let parts := parts.dropLast
    if parts = [] then (parts, value) else (parts, .arr [])
  | _ => (parts, value)

/-- `value == nil`. -/
def isNullVal : Val → Bool
  | .null => true
  | _ => false

/-- `handleDirectKeyAssignment`. -/
def handleDirectKeyAssignment (opts : DecodeOptions) (key : Str) (value : Val)
    (target : Mapping) : Except DecodeError Mapping :=
  if key = [] && isNullVal value then .ok target
  else do
    if opts.strict then checkKeyAssignmentConflict target key value
    .ok (mapSet target key value)

/-- `getOrCreateNestedMap`: returns the nested mapping to descend into and
the target with that key bound (Go mutates the shared map in place; the
functional translation re-binds the updated child on return). -/
def getOrCreateNestedMap (opts : DecodeOptions) (target : Mapping) (key : Str) :
    Except DecodeError (Mapping × Mapping) :=
  match mapGet target key with
  | none => .ok ([], mapSet target key (.map []))
  | some existing =>
    match existing with
    | .map nested => .ok (nested, target)
    | _ =>
      if opts.strict then
        .error { message := chars "path expansion conflict: key has type " ++
                 getValueType existing ++ chars ", cannot expand as object" }
      else .ok ([], mapSet target key (.map []))

mutual

/-- `expandDottedKey`: expand `a.b.c` into nested mappings, with conflict
resolution (the fuel is bounded by the number of path segments). -/
def expandDottedKey (fuel : Nat) (opts : DecodeOptions) (path : Str) (value : Val)
    (target : Mapping) : Except DecodeError Mapping :=
  match fuel with
  | 0 => .error { message := chars "fuel exhausted" }
  | fuel + 1 =>
    let parts := splitOnChar '.' path
    if parts.isEmpty then .error { message := chars "empty path in expandDottedKey" }
    else
      let (parts, value) := handleTrailingDotInPath parts value
      if parts.isEmpty then .error { message := chars "invalid path with only dot" }
      else
        match parts with
        | [single] => handleDirectKeyAssignment opts single value target
        | _ => expandMultiPartPath fuel opts parts value target

/-- `expandMultiPartPath`. -/
def expandMultiPartPath (fuel : Nat) (opts : DecodeOptions) (parts : List Str) (value : Val)
    (target : Mapping) : Except DecodeError Mapping :=
  match fuel with
  | 0 => .error { message := chars "fuel exhausted" }
  | fuel + 1 =>
    match parts with
    | [] => .error { message := chars "empty key segment in path" }
    | firstKey :: restParts =>
      let remainingPath := joinWith (chars ".") restParts
      if firstKey = [] then .error { message := chars "empty key segment in path" }
      else do
        let (nestedMap, target) ← getOrCreateNestedMap opts target firstKey
        let nestedMap ← expandDottedKey fuel opts remainingPath value nestedMap
        .ok (mapSet target firstKey (.map nestedMap))

end

/-- `skipPastQuotedKey`: move the cursor past a leading quoted key so the
bracket search cannot match inside quotes. -/
def skipPastQuotedKeyAux : Nat → Parser → Parser
  | 0, p => p
  | fuel + 1, p =>
    if p.isEOF then p
    else
      let ch := p.peek
      if ch = '\\' then
        let p := p.advance
        skipPastQuotedKeyAux fuel (if p.isEOF then p else p.advance)
      else if ch = '"' then p.advance
      else skipPastQuotedKeyAux fuel p.advance

def skipPastQuotedKey (p : Parser) : Parser :=
  if p.peek ≠ '"' then p
  else skipPastQuotedKeyAux (p.input.length + 1) p.advance

/-- `skipToArrayBracket`. -/
def skipToArrayBracketAux : Nat → Parser → Parser
  | 0, p => p
  | fuel + 1, p =>
    if p.peek ≠ '[' && !p.isEOF then skipToArrayBracketAux fuel p.advance else p

def skipToArrayBracket (p : Parser) : Parser :=
  skipToArrayBracketAux (p.input.length + 1) p

/-- `parseArrayLengthAndDelimiter`: digits accumulate into the length
string, `#` markers are skipped, a tab or pipe records the delimiter (and
also lands in the length string, whose digits are extracted later). -/
def parseArrayLengthAndDelimiterAux : Nat → Parser → Str → Str → (Str × Str × Parser)
  | 0, p, lengthStr, delimiter => (lengthStr, delimiter, p)
  | fuel + 1, p, lengthStr, delimiter =>
    if p.peek ≠ ']' && !p.isEOF then
      let ch := p.peek
      if isDigitChar ch then
        parseArrayLengthAndDelimiterAux fuel p.advance (lengthStr ++ [ch]) delimiter
      else if ch = '#' then
        parseArrayLengthAndDelimiterAux fuel p.advance lengthStr delimiter
      else if ch = '\t' then
        parseArrayLengthAndDelimiterAux fuel p.advance (lengthStr ++ [ch]) tabS
      else if ch = '|' then
        parseArrayLengthAndDelimiterAux fuel p.advance (lengthStr ++ [ch]) pipeS
      else (lengthStr, delimiter, p)
    else (lengthStr, delimiter, p)

def parseArrayLengthAndDelimiter (p : Parser) : Str × Str × Parser :=
  parseArrayLengthAndDelimiterAux (p.input.length + 1) p [] []

/-- `splitRowByDelimiter`: split on the (single-character) delimiter,
honouring quotes and escapes. -/
def splitRowByDelimiterAux (delimiter : Str) :
    Str → Str → Bool → Bool → List Str
  | [], current, _, _ => [current]
  | ch :: rest, current, inQuotes, escaped =>
    if escaped then splitRowByDelimiterAux delimiter rest (current ++ [ch]) inQuotes false
    else if ch = '\\' && inQuotes then
      splitRowByDelimiterAux delimiter rest (current ++ [ch]) inQuotes true
    else if ch = '"' then
      splitRowByDelimiterAux delimiter rest (current ++ [ch]) (!inQuotes) false
    else if !inQuotes && [ch] = delimiter then
      current :: splitRowByDelimiterAux delimiter rest [] inQuotes false
    else splitRowByDelimiterAux delimiter rest (current ++ [ch]) inQuotes false

def splitRowByDelimiter (content : Str) (delimiter : Str) : List Str :=
  splitRowByDelimiterAux delimiter content [] false false

/-- `hasUnquotedColon`: an unquoted colon followed by a space or the end of
the line marks an object-field line. -/
def hasUnquotedColonAux : Str → Bool → Bool → Bool
  | [], _, _ => false
  | ch :: rest, inQuotes, escaped =>
    if escaped then hasUnquotedColonAux rest inQuotes false
    else if ch = '\\' && inQuotes then hasUnquotedColonAux rest inQuotes true
    else if ch = '"' then hasUnquotedColonAux rest (!inQuotes) false
    else if !inQuotes && ch = ':' then
      match rest with
      | [] => true
      | next :: _ => if next = ' ' then true else hasUnquotedColonAux rest inQuotes false
    else hasUnquotedColonAux rest inQuotes false

def hasUnquotedColon (content : Str) : Bool :=
  hasUnquotedColonAux content false false

/-- `extractNumericLength`. -/
def extractNumericLength (lengthStr : Str) : Str :=
  lengthStr.filter isDigitChar

/-- `validateListArrayLength` (strict mode only; non-numeric lengths pass). -/
def validateListArrayLength (opts : DecodeOptions) (lengthStr : Str) (itemCount : Nat) :
    Except DecodeError Unit :=
  if lengthStr = [] || !opts.strict then .ok ()
  else
    let numStr := extractNumericLength lengthStr
    if numStr = [] then .ok ()
    else
      let expectedLen := atoiClamped numStr
      if itemCount ≠ expectedLen then
        .error { message := chars "list array length mismatch: expected " ++
                 natToChars expectedLen ++ chars ", got " ++ natToChars itemCount }
      else .ok ()

/-- `validateTabularArrayLength`. -/
def validateTabularArrayLength (opts : DecodeOptions) (lengthStr : Str) (rowCount : Nat) :
    Except DecodeError Unit :=
  if !opts.strict || lengthStr = [] then .ok ()
  else
    let numStr := extractNumericLength lengthStr
    if numStr = [] then .ok ()
    else
      let expected := atoiClamped numStr
      if rowCount ≠ expected then
        .error { message := chars "tabular array length mismatch: expected " ++
                 natToChars expected ++ chars " rows, got " ++ natToChars rowCount }
      else .ok ()

/-- `checkEmptyTabularArray` (strict, declared length positive, no rows). -/
def checkEmptyTabularArray (lengthStr : Str) (strict : Bool) (pos totalLines baseIndent : Nat) :
    Except DecodeError Unit :=
  if lengthStr = [] || !strict then .ok ()
  else
    let numStr := extractNumericLength lengthStr
    if numStr = [] then .ok ()
    else
      let expectedLen := atoiClamped numStr
      if expectedLen > 0 then
        .error { message := chars "tabular array length mismatch: expected " ++
                 natToChars expectedLen ++ chars " rows, got 0 (pos=" ++ natToChars pos ++
                 chars ", total lines=" ++ natToChars totalLines ++ chars ", baseIndent=" ++
                 natToChars baseIndent ++ chars ")" }
      else .ok ()

/-- `handleBlankLineInTabular` (strict mode rejects blank rows). -/
def handleBlankLineInTabular (opts : DecodeOptions) (line : LineInfo) :
    Except DecodeError Unit :=
  if opts.strict then
    .error { message := chars "blank line not allowed within tabular array in strict mode",
             line := line.lineNumber, context := line.original }
  else .ok ()

/-- `parseTabularRow`: delimiter-split the row, check the column count in
strict mode, scalar-decode each cell onto its header key. -/
def parseTabularRow (opts : DecodeOptions) (line : LineInfo) (delimiter : Str)
    (keys : List Str) : Except DecodeError Val := do
  let parts := splitRowByDelimiter line.content delimiter
  if opts.strict && parts.length ≠ keys.length then
    .error { message := chars "tabular array row has wrong number of values: expected " ++
             natToChars keys.length ++ chars ", got " ++ natToChars parts.length,
             line := line.lineNumber, context := line.original }
  else do
    let row ← parseTabularRowCells keys parts []
    .ok (.map row)
where
  parseTabularRowCells (keys : List Str) (parts : List Str) (row : Mapping) :
      Except DecodeError Mapping :=
    match keys with
    | [] => .ok row
    | k :: restKeys =>
      match parts with
      | [] => .ok row
      | part :: restParts => do
        let v ← parseValue (trimSpace part)
        parseTabularRowCells restKeys restParts (mapSet row k v)

/-- `parseInlineArray`: delimiter-split the remainder, scalar-decode each
field, then enforce the declared length in strict mode. -/
def parseInlineArrayParts (parts : List Str) : Except DecodeError (List Val) :=
  match parts with
  | [] => .ok []
  | part :: rest => do
    let v ← parseValue (trimSpace part)
    let vs ← parseInlineArrayParts rest
    .ok (v :: vs)

def parseInlineArray (opts : DecodeOptions) (p : Parser) (lengthStr : Str)
    (delimiter : Str) : Except DecodeError Val := do
  let delimiter := if delimiter = [] then commaS else delimiter
  let remaining := p.input.drop p.pos
  let parts := splitRowByDelimiter remaining delimiter
  let result ← parseInlineArrayParts parts
  if lengthStr ≠ [] && opts.strict then
    let numStr := extractNumericLength lengthStr
    if numStr ≠ [] then
      let expectedLen := atoiClamped numStr
      if result.length ≠ expectedLen then
        .error { message := chars "array length mismatch: expected " ++
                 natToChars expectedLen ++ chars ", got " ++ natToChars result.length }
      else .ok (.arr result)
    else .ok (.arr result)
  else .ok (.arr result)

/-- `parseHeaderKeys`: scan the `{...}` header, splitting on the delimiter
outside quotes; spaces outside quotes are dropped, quoted keys end at their
closing quote. -/
def parseHeaderKeysAux (delimiter : Str) :
    Nat → Parser → Str → Bool → Bool → List Str → (List Str × Parser)
  | 0, p, current, _, _, keys => (keys ++ (if current ≠ [] then [trimSpace current] else []), p)
  | fuel + 1, p, current, inQuotes, escaped, keys =>
    if p.peek ≠ '}' && !p.isEOF then
      let ch := p.peek
      let p := p.advance
      if escaped then parseHeaderKeysAux delimiter fuel p (current ++ [ch]) inQuotes false keys
      else if ch = '\\' && inQuotes then
        parseHeaderKeysAux delimiter fuel p current inQuotes true keys
      else if ch = '"' then
        if !inQuotes then parseHeaderKeysAux delimiter fuel p current true false keys
        else parseHeaderKeysAux delimiter fuel p [] false false (keys ++ [current])
      else if !inQuotes && ch = ' ' then
        parseHeaderKeysAux delimiter fuel p current inQuotes false keys
      else if !inQuotes && [ch] = delimiter then
        if current ≠ [] then
          parseHeaderKeysAux delimiter fuel p [] inQuotes false (keys ++ [trimSpace current])
        else parseHeaderKeysAux delimiter fuel p current inQuotes false keys
      else parseHeaderKeysAux delimiter fuel p (current ++ [ch]) inQuotes false keys
    else (keys ++ (if current ≠ [] then [trimSpace current] else []), p)

def parseHeaderKeys (p : Parser) (delimiter : Str) : List Str × Parser :=
  parseHeaderKeysAux delimiter (p.input.length + 1) p [] false false []

/-- `parseTabularArrayHeader`: skip to `{`, fix the header delimiter
(comma unless a tab or pipe marker was declared), scan the keys. -/
def parseTabularArrayHeaderSkipAux : Nat → Parser → Parser
  | 0, p => p
  | fuel + 1, p =>
    if p.peek ≠ '{' && !p.isEOF then parseTabularArrayHeaderSkipAux fuel p.advance else p

def parseTabularArrayHeader (p : Parser) (delimiter : Str) : List Str × Str :=
  let p := parseTabularArrayHeaderSkipAux (p.input.length + 1) p
  let p := p.advance
  let headerDelimiter := if delimiter = tabS || delimiter = pipeS then delimiter else commaS
  let (keys, _) := parseHeaderKeys p headerDelimiter
  (keys, headerDelimiter)

/-- `parseHeader` (the variant used by value-position arrays): delimiter
split of the raw header text, unquoting quoted keys. -/
def parseHeader (header : Str) (delimiter : Str) : List Str :=
  let delimiter := if delimiter = [] then commaS else delimiter
  let parts := splitRowByDelimiter header delimiter
  parts.map (fun part =>
    let part := trimSpace part
    if part.length ≥ 2 && startsWith part doubleQuoteS && endsWith part doubleQuoteS then
      match validateAndUnescape ((part.drop 1).take (part.length - 2)) with
      | .error _ => part
      | .ok unescaped => unescaped
    else part)

/-- `parseTabularArrayRows`: collect data rows after the header (with the
strict blank-line rule, the indent guard, and the unquoted-colon end-of-array
heuristic); returns rows, row count and the final cursor. -/
def parseTabularArrayRowsLoop (opts : DecodeOptions) (lines : List LineInfo)
    (baseIndent : Nat) (keys : List Str) (delimiter : Str) :
    Nat → Nat → List Val → Nat → Except DecodeError (List Val × Nat × Nat)
  | 0, pos, acc, rowCount => .ok (acc, rowCount, pos)
  | fuel + 1, pos, acc, rowCount =>
    if pos < lines.length then
      let line := lineAt lines pos
      if line.isBlank then do
        let _ ← handleBlankLineInTabular opts line
        parseTabularArrayRowsLoop opts lines baseIndent keys delimiter fuel (pos + 1) acc rowCount
      else if line.indent < baseIndent then .ok (acc, rowCount, pos - 1)
      else if hasUnquotedColon line.content then .ok (acc, rowCount, pos - 1)
      else do
        let row ← parseTabularRow opts line delimiter keys
        parseTabularArrayRowsLoop opts lines baseIndent keys delimiter fuel (pos + 1)
          (acc ++ [row]) (rowCount + 1)
    else .ok (acc, rowCount, pos)

def parseTabularArrayRows (opts : DecodeOptions) (lines : List LineInfo) (baseIndent : Nat)
    (lengthStr : Str) (keys : List Str) (delimiter : Str) (pos : Nat) :
    Except DecodeError (List Val × Nat × Nat) := do
  let pos := pos + 1
  if lines.length ≤ pos then do
    let _ ← checkEmptyTabularArray lengthStr opts.strict pos lines.length baseIndent
    .ok ([], 0, pos)
  else
    parseTabularArrayRowsLoop opts lines baseIndent keys delimiter (lines.length + 1) pos [] 0

/-- `parseTabularRows` (the value-position variant reached through
`parseArray`): rows end at `indent <= baseIndent` without stepping the
cursor back, and the length validation happens inside. -/
def parseTabularRowsLoop (opts : DecodeOptions) (lines : List LineInfo)
    (baseIndent : Nat) (keys : List Str) (delimiter : Str) :
    Nat → Nat → List Val → Nat → Except DecodeError (List Val × Nat × Nat)
  | 0, pos, acc, rowCount => .ok (acc, rowCount, pos)
  | fuel + 1, pos, acc, rowCount =>
    if pos < lines.length then
      let line := lineAt lines pos
      if line.isBlank then do
        let _ ← handleBlankLineInTabular opts line
        parseTabularRowsLoop opts lines baseIndent keys delimiter fuel (pos + 1) acc rowCount
      else if line.indent ≤ baseIndent then .ok (acc, rowCount, pos)
      else do
        let row ← parseTabularRow opts line delimiter keys
        parseTabularRowsLoop opts lines baseIndent keys delimiter fuel (pos + 1)
          (acc ++ [row]) (rowCount + 1)
    else .ok (acc, rowCount, pos)

def parseTabularRows (opts : DecodeOptions) (lines : List LineInfo) (baseIndent : Nat)
    (lengthStr : Str) (delimiter : Str) (keys : List Str) (pos : Nat) :
    Except DecodeError (List Val × Nat) := do
  let (result, rowCount, pos) ←
    parseTabularRowsLoop opts lines baseIndent keys delimiter (lines.length + 1) pos [] 0
  let _ ← validateTabularArrayLength opts lengthStr rowCount
  .ok (result, pos)

/-- `handleBlankLineInListArray`: a blank line ends the array if the next
non-blank line falls back to the base indent; otherwise strict mode rejects
it. -/
def nextNonBlankFrom (lines : List LineInfo) : Nat → Nat → Nat
  | 0, pos => pos
  | fuel + 1, pos =>
    if pos < lines.length && (lineAt lines pos).isBlank then
      nextNonBlankFrom lines fuel (pos + 1)
    else pos

def handleBlankLineInListArray (opts : DecodeOptions) (lines : List LineInfo)
    (line : LineInfo) (baseIndent : Nat) (pos : Nat) : Except DecodeError Bool :=
  let nextNonBlank := nextNonBlankFrom lines (lines.length + 1) (pos + 1)
  if nextNonBlank < lines.length && (lineAt lines nextNonBlank).indent ≤ baseIndent then
    .ok true
  else if opts.strict then
    .error { message := chars "blank lines not allowed within arrays in strict mode",
             line := line.lineNumber, context := line.original }
  else .ok false

/-- `isNestedArrayItem`: the current item's first line is itself an array
header (brackets present, trailing colon). -/
def isNestedArrayItem (itemLines : List LineInfo) : Bool :=
  match itemLines with
  | [] => false
  | firstLine :: _ =>
    let firstContent := trimSpace (trimLeadingMatch firstLine.content listItemMarkerS)
    containsChar firstContent '[' && containsChar firstContent ']' &&
      endsWith firstContent colonS

/-- `shouldStopCollectingLines`. -/
def shouldStopCollectingLines (nextLine : LineInfo) (itemIndent : Nat)
    (itemLines : List LineInfo) : Bool :=
  if nextLine.indent < itemIndent then true
  else if nextLine.indent = itemIndent && startsWith nextLine.content listItemMarkerS then true
  else if nextLine.indent > itemIndent && startsWith nextLine.content listItemMarkerS then
    !isNestedArrayItem itemLines
  else false

/-- `parseTabularArray` (array headers found on a key line): parse the
`{...}` header keys, collect the rows, validate the row count. -/
def parseTabularArray (opts : DecodeOptions) (lines : List LineInfo) (line : LineInfo)
    (baseIndent : Nat) (lengthStr : Str) (delimiter : Str) (pos : Nat) :
    Except DecodeError (Val × Nat) := do
  let p := newParser line.content
  let (keys, headerDelimiter) := parseTabularArrayHeader p delimiter
  let (result, rowCount, pos) ←
    parseTabularArrayRows opts lines baseIndent lengthStr keys headerDelimiter pos
  let _ ← validateTabularArrayLength opts lengthStr rowCount
  .ok (.arr result, pos)

/-- `parseTabularArrayFromParser` (array headers found in value position). -/
def parseTabularHeaderScanAux : Nat → Parser → Parser
  | 0, p => p
  | fuel + 1, p =>
    if p.peek ≠ '}' && !p.isEOF then parseTabularHeaderScanAux fuel p.advance else p

def parseTabularArrayFromParser (opts : DecodeOptions) (lines : List LineInfo) (p : Parser)
    (baseIndent : Nat) (lengthStr : Str) (delimiter : Str) (pos : Nat) :
    Except DecodeError (Val × Nat) := do
  let p := p.advance
  let headerStart := p.pos
  let p := parseTabularHeaderScanAux (p.input.length + 1) p
  let header := (p.input.drop headerStart).take (p.pos - headerStart)
  let p := p.advance
  let keys := parseHeader header delimiter
  let p ← p.expect ':'
  let p := p.skipWhitespace
  if p.isEOF || p.peek = '\n' then do
    let (rows, pos) ← parseTabularRows opts lines baseIndent lengthStr delimiter keys (pos + 1)
    .ok (.arr rows, pos)
  else .error { message := chars "tabular array must have rows on separate lines" }

/-- The strictly-more-indented line collector shared by `parseListItem`'s
inner loops (`j`/`m` index loops: blanks are skipped, collection stops at
the first line not indented beyond `currentIndent`; returns the collected
lines and the final index). -/
def collectMoreIndented (lines : List LineInfo) (currentIndent : Nat) :
    Nat → Nat → List LineInfo × Nat
  | 0, j => ([], j)
  | fuel + 1, j =>
    if j < lines.length then
      let nextLine := lineAt lines j
      if nextLine.isBlank then collectMoreIndented lines currentIndent fuel (j + 1)
      else if nextLine.indent ≤ currentIndent then ([], j)
      else
        let (rest, j') := collectMoreIndented lines currentIndent fuel (j + 1)
        (nextLine :: rest, j')
    else ([], j)

/-- The item-line collector of `collectAndParseListObject` (strict mode
rejects blank lines inside the item). -/
def collectItemLines (opts : DecodeOptions) (lines : List LineInfo) (itemIndent : Nat) :
    Nat → Nat → List LineInfo → Except DecodeError (List LineInfo × Nat)
  | 0, pos, itemLines => .ok (itemLines, pos)
  | fuel + 1, pos, itemLines =>
    if pos < lines.length then
      let nextLine := lineAt lines pos
      if nextLine.isBlank then
        if opts.strict then
          .error { message := chars "blank lines not allowed within arrays in strict mode",
                   line := nextLine.lineNumber, context := nextLine.original }
        else collectItemLines opts lines itemIndent fuel (pos + 1) itemLines
      else if shouldStopCollectingLines nextLine itemIndent itemLines then .ok (itemLines, pos)
      else collectItemLines opts lines itemIndent fuel (pos + 1) (itemLines ++ [nextLine])
    else .ok (itemLines, pos)

/-- The trailing-fields loop of `parseListItem`'s tabular-on-hyphen branch
(field lines after the array; key or value parse failures skip the line). -/
def parseListItemTabularTail (baseIndent : Nat) (adjustedLines : List LineInfo) :
    Nat → Nat → Mapping → Mapping
  | 0, _, result => result
  | fuel + 1, i, result =>
    if i < adjustedLines.length then
      let line := lineAt adjustedLines i
      if line.isBlank then parseListItemTabularTail baseIndent adjustedLines fuel (i + 1) result
      else if line.indent ≤ baseIndent then result
      else
        let step :=
          match (newParser line.content).parseKey with
          | .error _ => result
          | .ok (fkey, lp) =>
            match lp.expect ':' with
            | .error _ => result
            | .ok lp =>
              let lp := lp.skipWhitespace
              match parseValue (lp.input.drop lp.pos) with
              | .error _ => result
              | .ok fval => mapSet result fkey fval
        parseListItemTabularTail baseIndent adjustedLines fuel (i + 1) step
    else result

/-! ## Structural parser core (`structural_parser.go`)

The mutually recursive parsing methods of `structuralParser`.  The parser
state (`sp.lines`, `sp.pos`) is threaded explicitly: functions receive the
line list and cursor and return the updated cursor alongside their result.
The shared fuel parameter makes the mutual recursion structural; `decode`
supplies a cubic fuel bound that dominates the parser's call count on its
input (running out of fuel produces an artificial error that no theorem's
input reaches). -/

def fuelErr : DecodeError := { message := chars "fuel exhausted" }

mutual

/-- `parseObject`: scan lines at exactly `baseIndent` (blank and deeper
lines skipped, shallower lines end the mapping), one key/value pair per
line. -/
def parseObjectF (fuel : Nat) (opts : DecodeOptions) (lines : List LineInfo)
    (baseIndent : Nat) (startPos : Nat) : Except DecodeError (Mapping × Nat) :=
  match fuel with
  | 0 => .error fuelErr
  | fuel + 1 => parseObjectLoop fuel opts lines baseIndent startPos []
termination_by structural fuel

/-- The line loop of `parseObject`. -/
def parseObjectLoop (fuel : Nat) (opts : DecodeOptions) (lines : List LineInfo)
    (baseIndent : Nat) (pos : Nat) (result : Mapping) : Except DecodeError (Mapping × Nat) :=
  match fuel with
  | 0 => .error fuelErr
  | fuel + 1 =>
    if pos < lines.length then
      let line := lineAt lines pos
      match shouldSkipObjectLine line baseIndent with
      | .skipAndContinue => parseObjectLoop fuel opts lines baseIndent (pos + 1) result
      | .stopParsing => .ok (result, pos)
      | .parseThisLine => do
        let (result, pos) ← handleObjectKeyValuePairF fuel opts lines line baseIndent pos result
        parseObjectLoop fuel opts lines baseIndent (pos + 1) result
    else .ok (result, pos)
termination_by structural fuel

/-- `handleObjectKeyValuePair`: parse the pair, then either expand a dotted
key (`expandPaths=safe`, unquoted, dotted, all segments identifiers) or
assign directly with the strict conflict check. -/
def handleObjectKeyValuePairF (fuel : Nat) (opts : DecodeOptions) (lines : List LineInfo)
    (line : LineInfo) (baseIndent : Nat) (pos : Nat) (result : Mapping) :
    Except DecodeError (Mapping × Nat) :=
  match fuel with
  | 0 => .error fuelErr
  | fuel + 1 => do
    let ((key, wasQuoted, value), pos) ←
      parseKeyValueLineWithQuoteInfoF fuel opts lines line baseIndent pos
    let shouldExpand := opts.expandPaths = chars "safe" && !wasQuoted &&
      containsChar key '.' && isExpandablePath key
    if shouldExpand then do
      let result ← expandDottedKey (key.length + 1) opts key value result
      .ok (result, pos)
    else do
      let result ← assignKeyWithConflictCheck opts key value result
      .ok (result, pos)
termination_by structural fuel

/-- `parseKeyValueLineWithQuoteInfo`: key (with quoting information), then
an array header, an inline value, or a nested block on the following
strictly-more-indented lines (an empty block yields an empty mapping, or an
empty sequence when the key carries a `[0]` marker). -/
def parseKeyValueLineWithQuoteInfoF (fuel : Nat) (opts : DecodeOptions)
    (lines : List LineInfo) (line : LineInfo) (baseIndent : Nat) (pos : Nat) :
    Except DecodeError ((Str × Bool × Val) × Nat) :=
  match fuel with
  | 0 => .error fuelErr
  | fuel + 1 => do
    let p := newParser line.content
    let (key, wasQuoted, p) ← p.parseKeyWithQuoteInfo
    if p.peek = '[' then do
      let (value, pos) ← parseArrayFromLineF fuel opts lines line baseIndent pos
      .ok ((key, wasQuoted, value), pos)
    else do
      let p ← p.expect ':'
      let p := p.skipWhitespace
      if p.isEOF || p.peek = '\n' then
        let pos := pos + 1
        if lines.length ≤ pos then .ok ((key, wasQuoted, .map []), pos)
        else
          let nextLine := lineAt lines pos
          if nextLine.indent ≤ baseIndent then
            let pos := pos - 1
            if endsWith key (chars "[0]") then .ok ((key, wasQuoted, .arr []), pos)
            else .ok ((key, wasQuoted, .map []), pos)
          else do
            let (value, pos) ← parseObjectF fuel opts lines nextLine.indent pos
            .ok ((key, wasQuoted, .map value), pos - 1)
      else
        let remaining := p.input.drop p.pos
        if startsWith remaining openBracketS then do
          let (value, pos) ← parseArrayF fuel opts lines p baseIndent pos
          .ok ((key, wasQuoted, value), pos)
        else do
          let value ← parseValue remaining
          .ok ((key, wasQuoted, value), pos)
termination_by structural fuel

/-- `parseKeyValueLine` (quote-agnostic variant used inside list items; an
empty nested block yields nil rather than an empty mapping). -/
def parseKeyValueLineF (fuel : Nat) (opts : DecodeOptions) (lines : List LineInfo)
    (line : LineInfo) (baseIndent : Nat) (pos : Nat) :
    Except DecodeError ((Str × Val) × Nat) :=
  match fuel with
  | 0 => .error fuelErr
  | fuel + 1 => do
    let p := newParser line.content
    let (key, p) ← p.parseKey
    if p.peek = '[' then do
      let (value, pos) ← parseArrayFromLineF fuel opts lines line baseIndent pos
      .ok ((key, value), pos)
    else do
      let p ← p.expect ':'
      let p := p.skipWhitespace
      if p.isEOF || p.peek = '\n' then
        let pos := pos + 1
        if lines.length ≤ pos then .ok ((key, .null), pos)
        else
          let nextLine := lineAt lines pos
          if nextLine.indent ≤ baseIndent then .ok ((key, .null), pos - 1)
          else do
            let (value, pos) ← parseObjectF fuel opts lines nextLine.indent pos
            .ok ((key, .map value), pos - 1)
      else do
        let value ← parseValue (p.input.drop p.pos)
        .ok ((key, value), pos)
termination_by structural fuel

/-- `parseArrayFromLine`: skip a quoted key, find the `[`, read the length
and delimiter markers, and route to the inline / tabular / list parser. -/
def parseArrayFromLineF (fuel : Nat) (opts : DecodeOptions) (lines : List LineInfo)
    (line : LineInfo) (baseIndent : Nat) (pos : Nat) : Except DecodeError (Val × Nat) :=
  match fuel with
  | 0 => .error fuelErr
  | fuel + 1 => do
    let p := newParser line.content
    let p := skipPastQuotedKey p
    let p := skipToArrayBracket p
    let p ← p.expect '['
    let (lengthStr, delimiter, p) := parseArrayLengthAndDelimiter p
    let p ← p.expect ']'
    routeArrayParsingF fuel opts lines p line baseIndent lengthStr delimiter pos
termination_by structural fuel

/-- `routeArrayParsing`. -/
def routeArrayParsingF (fuel : Nat) (opts : DecodeOptions) (lines : List LineInfo)
    (p : Parser) (line : LineInfo) (baseIndent : Nat) (lengthStr delimiter : Str)
    (pos : Nat) : Except DecodeError (Val × Nat) :=
  match fuel with
  | 0 => .error fuelErr
  | fuel + 1 =>
    if p.peek = '{' then parseTabularArray opts lines line baseIndent lengthStr delimiter pos
    else do
      let p ← p.expect ':'
      let p := p.skipWhitespace
      if p.isEOF || p.peek = '\n' then
        parseListArrayF fuel opts lines baseIndent lengthStr delimiter pos
      else do
        let v ← parseInlineArray opts p lengthStr delimiter
        .ok (v, pos)
termination_by structural fuel

/-- `parseArray` (value-position `[...]` after a key's colon). -/
def parseArrayF (fuel : Nat) (opts : DecodeOptions) (lines : List LineInfo) (p : Parser)
    (baseIndent : Nat) (pos : Nat) : Except DecodeError (Val × Nat) :=
  match fuel with
  | 0 => .error fuelErr
  | fuel + 1 => do
    let p ← p.expect '['
    let (lengthStr, delimiter, p) := parseArrayLengthAndDelimiter p
    let p ← p.expect ']'
    if p.peek = '{' then
      parseTabularArrayFromParser opts lines p baseIndent lengthStr delimiter pos
    else do
      let p ← p.expect ':'
      let p := p.skipWhitespace
      if p.isEOF || p.peek = '\n' then
        parseListArrayF fuel opts lines baseIndent lengthStr delimiter (pos + 1)
      else do
        let v ← parseInlineArray opts p lengthStr delimiter
        .ok (v, pos)
termination_by structural fuel

/-- `parseListArray`: `- `-prefixed elements on the following more-indented
lines; the declared length is validated afterwards. -/
def parseListArrayF (fuel : Nat) (opts : DecodeOptions) (lines : List LineInfo)
    (baseIndent : Nat) (lengthStr delimiter : Str) (pos : Nat) :
    Except DecodeError (Val × Nat) :=
  match fuel with
  | 0 => .error fuelErr
  | fuel + 1 => do
    let (result, itemCount, pos) ←
      parseListArrayLoop fuel opts lines baseIndent delimiter (pos + 1) [] 0
    let _ ← validateListArrayLength opts lengthStr itemCount
    .ok (.arr result, pos)
termination_by structural fuel

/-- The element loop of `parseListArray`. -/
def parseListArrayLoop (fuel : Nat) (opts : DecodeOptions) (lines : List LineInfo)
    (baseIndent : Nat) (delimiter : Str) (pos : Nat) (acc : List Val) (itemCount : Nat) :
    Except DecodeError (List Val × Nat × Nat) :=
  match fuel with
  | 0 => .error fuelErr
  | fuel + 1 =>
    if pos < lines.length then
      let line := lineAt lines pos
      if line.isBlank then do
        let shouldBreak ← handleBlankLineInListArray opts lines line baseIndent pos
        if shouldBreak then .ok (acc, itemCount, pos - 1)
        else parseListArrayLoop fuel opts lines baseIndent delimiter (pos + 1) acc itemCount
      else if line.indent ≤ baseIndent then .ok (acc, itemCount, pos - 1)
      else if !startsWith line.content listItemMarkerS then .ok (acc, itemCount, pos - 1)
      else do
        let (item, pos) ← parseListArrayItemF fuel opts lines line baseIndent delimiter pos
        parseListArrayLoop fuel opts lines baseIndent delimiter pos (acc ++ [item]) (itemCount + 1)
    else .ok (acc, itemCount, pos)
termination_by structural fuel

/-- `parseListArrayItem`: empty content is an empty mapping, `[` starts a
nested array, colon-free content is a bare scalar, otherwise the hyphen
line and its continuation lines form one mapping. -/
def parseListArrayItemF (fuel : Nat) (opts : DecodeOptions) (lines : List LineInfo)
    (line : LineInfo) (baseIndent : Nat) (delimiter : Str) (pos : Nat) :
    Except DecodeError (Val × Nat) :=
  match fuel with
  | 0 => .error fuelErr
  | fuel + 1 =>
    let content := trimSpace (trimLeadingMatch line.content listItemMarkerS)
    if content = [] then .ok (.map [], pos + 1)
    else if startsWith content openBracketS then do
      let (value, pos) ← parseArrayFromLineF fuel opts lines line line.indent pos
      .ok (value, pos + 1)
    else if !containsChar content ':' then do
      let value ← parseValue content
      .ok (value, pos + 1)
    else collectAndParseListObjectF fuel opts lines line delimiter pos
termination_by structural fuel

/-- `collectAndParseListObject`. -/
def collectAndParseListObjectF (fuel : Nat) (opts : DecodeOptions) (lines : List LineInfo)
    (line : LineInfo) (delimiter : Str) (pos : Nat) : Except DecodeError (Val × Nat) :=
  match fuel with
  | 0 => .error fuelErr
  | fuel + 1 => do
    let itemIndent := line.indent
    let (itemLines, pos) ← collectItemLines opts lines itemIndent (lines.length + 1) (pos + 1) [line]
    parseListItemF fuel opts lines itemLines itemIndent delimiter pos
termination_by structural fuel

/-- `parseListItem`: one list element that may be a bare scalar, an array on
the hyphen line, or a multi-line mapping parsed by the field loops below.
(`outerPos` is the enclosing parser's cursor, which the first two branches
advance through the enclosing line list, exactly as the Go methods mutate
`sp.pos`.) -/
def parseListItemF (fuel : Nat) (opts : DecodeOptions) (outerLines : List LineInfo)
    (itemLines : List LineInfo) (baseIndent : Nat) (parentDelimiter : Str)
    (outerPos : Nat) : Except DecodeError (Val × Nat) :=
  match fuel with
  | 0 => .error fuelErr
  | fuel + 1 =>
    match itemLines with
    | [] => .error { message := chars "empty list item" }
    | firstLine :: _ =>
      let content := trimSpace (trimLeadingMatch firstLine.content listItemMarkerS)
      if startsWith content openBracketS then
        parseArrayFromLineF fuel opts outerLines firstLine baseIndent outerPos
      else
        -- array definition on the hyphen line (`key[...]`)
        let bracketBranch : Option (Except DecodeError (Val × Nat)) :=
          if containsChar content '[' && containsChar content ']' then
            match (newParser content).parseKey with
            | .ok (key, p) =>
              if p.peek = '[' then
                some (do
                  let adjustedLines :=
                    match itemLines with
                    | [] => []
                    | l0 :: rest => { l0 with content := content } :: rest
                  let (value, tempPos) ←
                    parseArrayFromLineF fuel opts adjustedLines (lineAt adjustedLines 0)
                      baseIndent 0
                  let result : Mapping := [(key, value)]
                  if tempPos < adjustedLines.length - 1 then do
                    let (result, outerPos) ←
                      parseListItemBracketTail fuel opts outerLines adjustedLines baseIndent
                        (tempPos + 1) result outerPos
                    .ok (.map result, outerPos)
                  else .ok (.map result, outerPos))
              else none
            | .error _ => none
          else none
        match bracketBranch with
        | some r => r
        | none =>
          if itemLines.length = 1 && !containsChar content ':' then
            (parseValue content).map (·, outerPos)
          else
            -- tabular array header on the hyphen line (`key[n]{...}`)
            let tabularBranch : Option (Except DecodeError (Val × Nat)) :=
              if containsChar content '[' && containsChar content '{' &&
                  containsChar content '}' then
                match (newParser content).parseKey with
                | .ok (key, p) =>
                  if p.peek = '[' then
                    some (do
                      let adjustedLines :=
                        match itemLines with
                        | [] => []
                        | l0 :: rest => { l0 with content := content } :: rest
                      let (value, tempPos) ←
                        parseArrayFromLineF fuel opts adjustedLines (lineAt adjustedLines 0)
                          (lineAt adjustedLines 0).indent 0
                      let result : Mapping := [(key, value)]
                      let result :=
                        parseListItemTabularTail baseIndent adjustedLines
                          (adjustedLines.length + 1) (tempPos + 1) result
                      .ok (.map result, outerPos))
                  else none
                | .error _ => none
              else none
            match tabularBranch with
            | some r => r
            | none => parseListItemObjectF fuel opts outerLines itemLines baseIndent content outerPos
termination_by structural fuel

/-- The object-assembly tail of `parseListItem`: first-line `key: value`
handling, the nested-wrapper shortcuts, then the main field loop. -/
def parseListItemObjectF (fuel : Nat) (opts : DecodeOptions) (outerLines : List LineInfo)
    (itemLines : List LineInfo) (baseIndent : Nat) (content : Str) (outerPos : Nat) :
    Except DecodeError (Val × Nat) :=
  match fuel with
  | 0 => .error fuelErr
  | fuel + 1 => do
    -- first line: `key: value` via SplitN
    let (result, firstKey, earlyReturn) ←
      if containsChar content ':' then do
        let parts := splitN2 ':' content
        let key := trimSpace (parts.headD [])
        let valueStr := if parts.length > 1 then trimSpace (parts.getD 1 []) else []
        if containsChar key '[' && containsChar key ']' then
          let baseKey := key.takeWhile (· ≠ '[')
          if valueStr = [] then
            if endsWith key (chars "[0]") then
              pure (([(baseKey, Val.arr [])] : Mapping), ([] : Str), (none : Option Val))
            else pure (([] : Mapping), ([] : Str), (none : Option Val))
          else do
            let value ← parseValue valueStr
            pure (([(baseKey, value)] : Mapping), ([] : Str), (none : Option Val))
        else if valueStr ≠ [] then do
          let value ← parseValue valueStr
          pure (([(key, value)] : Mapping), ([] : Str), (none : Option Val))
        else if !containsChar key '[' && itemLines.length > 1 then
          -- nested object wrapper: following lines strictly more indented
          let baseIndent0 := (lineAt itemLines 0).indent
          let (nestedLines, _) := collectMoreIndented itemLines baseIndent0 (itemLines.length + 1) 1
          if !nestedLines.isEmpty then do
            let (nestedObj, _) ←
              parseObjectF fuel opts nestedLines (lineAt nestedLines 0).indent 0
            pure (([(key, Val.map nestedObj)] : Mapping), ([] : Str),
              (some (Val.map [(key, Val.map nestedObj)]) : Option Val))
          else pure (([] : Mapping), key, (none : Option Val))
        else pure (([] : Mapping), key, (none : Option Val))
      else pure (([] : Mapping), ([] : Str), (none : Option Val))
    match earlyReturn with
    | some v => .ok (v, outerPos)
    | none => do
      -- start index: 0 when the first line is a non-`[0]` array header with
      -- an empty inline value, 1 otherwise
      let i :=
        if containsChar content '[' && containsChar content ']' && containsChar content ':' then
          let parts := splitN2 ':' content
          if parts.length > 1 && trimSpace (parts.getD 1 []) = [] then
            let key := trimSpace (parts.headD [])
            if !endsWith key (chars "[0]") then 0 else 1
          else 1
        else 1
      -- first key with an empty value and no array notation: wrap all
      -- remaining lines as its nested object (when present, `len(lines) > 1`
      -- already makes the dropped-head list non-empty)
      if firstKey ≠ [] && !containsChar firstKey '[' &&
          (mapGet result firstKey).isNone && itemLines.length > 1 &&
          !(itemLines.drop 1).isEmpty then do
        let nestedLines := itemLines.drop 1
        let (nestedObj, _) ← parseObjectF fuel opts nestedLines (lineAt nestedLines 0).indent 0
        .ok (.map (mapSet result firstKey (.map nestedObj)), outerPos)
      else
        parseListItemMainLoopWrap fuel opts outerLines itemLines baseIndent content
          firstKey i result outerPos
termination_by structural fuel

/-- Run the main field loop of `parseListItem`, then apply the empty-result
fallback (`parseValue content`). -/
def parseListItemMainLoopWrap (fuel : Nat) (opts : DecodeOptions) (outerLines : List LineInfo)
    (itemLines : List LineInfo) (baseIndent : Nat) (content : Str) (firstKey : Str)
    (i : Nat) (result : Mapping) (outerPos : Nat) : Except DecodeError (Val × Nat) :=
  match fuel with
  | 0 => .error fuelErr
  | fuel + 1 => do
    let result ← parseListItemMainLoop fuel opts outerLines itemLines baseIndent firstKey i result
    if result.length = 0 then (parseValue content).map (·, outerPos)
    else .ok (.map result, outerPos)
termination_by structural fuel

/-- The trailing-fields loop of `parseListItem`'s array-on-hyphen branch:
lines containing a colon are parsed as key/value lines against the
enclosing parser (errors abort). -/
def parseListItemBracketTail (fuel : Nat) (opts : DecodeOptions) (outerLines : List LineInfo)
    (adjustedLines : List LineInfo) (baseIndent : Nat) (i : Nat) (result : Mapping)
    (outerPos : Nat) : Except DecodeError (Mapping × Nat) :=
  match fuel with
  | 0 => .error fuelErr
  | fuel + 1 =>
    if i < adjustedLines.length then
      let line := lineAt adjustedLines i
      if line.isBlank then
        parseListItemBracketTail fuel opts outerLines adjustedLines baseIndent (i + 1) result outerPos
      else if containsChar line.content ':' then do
        let ((k, v), outerPos) ← parseKeyValueLineF fuel opts outerLines line baseIndent outerPos
        parseListItemBracketTail fuel opts outerLines adjustedLines baseIndent (i + 1)
          (mapSet result k v) outerPos
      else
        parseListItemBracketTail fuel opts outerLines adjustedLines baseIndent (i + 1) result outerPos
    else .ok (result, outerPos)
termination_by structural fuel

/-- The main field loop of `parseListItem`: each line is a key with an
array, a nested block (guarded by the 100-line limit), or an inline value;
lines whose key or value fails to parse are skipped. -/
def parseListItemMainLoop (fuel : Nat) (opts : DecodeOptions) (outerLines : List LineInfo)
    (itemLines : List LineInfo) (baseIndent : Nat) (firstKey : Str) (i : Nat)
    (result : Mapping) : Except DecodeError Mapping :=
  match fuel with
  | 0 => .error fuelErr
  | fuel + 1 =>
    if i < itemLines.length then
      let line := lineAt itemLines i
      if line.isBlank then
        parseListItemMainLoop fuel opts outerLines itemLines baseIndent firstKey (i + 1) result
      else
        match (newParser line.content).parseKey with
        | .error _ =>
          parseListItemMainLoop fuel opts outerLines itemLines baseIndent firstKey (i + 1) result
        | .ok (key, p) =>
          if p.peek = '[' then
            let currentIndent := line.indent
            let (collected, j) := collectMoreIndented itemLines currentIndent
              (itemLines.length + 1) (i + 1)
            let tempLines := line :: collected
            match parseArrayFromLineF fuel opts tempLines line currentIndent 0 with
            | .error _ =>
              parseListItemMainLoop fuel opts outerLines itemLines baseIndent firstKey (i + 1) result
            | .ok (value, _) =>
              parseListItemMainLoop fuel opts outerLines itemLines baseIndent firstKey j
                (mapSet result key value)
          else
            match p.expect ':' with
            | .error _ =>
              parseListItemMainLoop fuel opts outerLines itemLines baseIndent firstKey (i + 1) result
            | .ok p =>
              let p := p.skipWhitespace
              let remaining := p.input.drop p.pos
              if remaining = [] || trimSpace remaining = [] then
                let (nestedLines, j) := collectMoreIndented itemLines line.indent
                  (itemLines.length + 1) (i + 1)
                if !nestedLines.isEmpty then
                  if nestedLines.length > 100 then
                    .error { message := chars "nesting depth exceeded limit" }
                  else if key = firstKey && firstKey ≠ [] then do
                    let (nestedObj, _) ←
                      parseObjectF fuel opts nestedLines (lineAt nestedLines 0).indent 0
                    parseListItemMainLoop fuel opts outerLines itemLines baseIndent firstKey j
                      (mapSet result key (.map nestedObj))
                  else do
                    let nestedResult ← parseListItemNestedLoop fuel opts nestedLines 0 []
                    parseListItemMainLoop fuel opts outerLines itemLines baseIndent firstKey j
                      (mapSet result key (.map nestedResult))
                else
                  parseListItemMainLoop fuel opts outerLines itemLines baseIndent firstKey (i + 1)
                    (mapSet result key (.map []))
              else
                match parseValue remaining with
                | .error _ =>
                  parseListItemMainLoop fuel opts outerLines itemLines baseIndent firstKey (i + 1)
                    result
                | .ok value =>
                  parseListItemMainLoop fuel opts outerLines itemLines baseIndent firstKey (i + 1)
                    (mapSet result key value)
    else .ok result
termination_by structural fuel

/-- The nested-field loop (`k` loop) of `parseListItem` (all parse failures
are skipped). -/
def parseListItemNestedLoop (fuel : Nat) (opts : DecodeOptions) (nestedLines : List LineInfo)
    (k : Nat) (nestedResult : Mapping) : Except DecodeError Mapping :=
  match fuel with
  | 0 => .error fuelErr
  | fuel + 1 =>
    if k < nestedLines.length then
      let nestedLine := lineAt nestedLines k
      match (newParser nestedLine.content).parseKey with
      | .error _ => parseListItemNestedLoop fuel opts nestedLines (k + 1) nestedResult
      | .ok (nkey, np) =>
        if np.peek = '[' then
          let nestedIndent := nestedLine.indent
          let (collected, m) := collectMoreIndented nestedLines nestedIndent
            (nestedLines.length + 1) (k + 1)
          let tempLines := nestedLine :: collected
          match parseArrayFromLineF fuel opts tempLines nestedLine nestedIndent 0 with
          | .error _ => parseListItemNestedLoop fuel opts nestedLines (k + 1) nestedResult
          | .ok (nvalue, _) =>
            parseListItemNestedLoop fuel opts nestedLines m (mapSet nestedResult nkey nvalue)
        else
          match np.expect ':' with
          | .error _ => parseListItemNestedLoop fuel opts nestedLines (k + 1) nestedResult
          | .ok np =>
            let np := np.skipWhitespace
            let nremaining := np.input.drop np.pos
            if nremaining = [] || trimSpace nremaining = [] then
              let (deepNestedLines, m) := collectMoreIndented nestedLines nestedLine.indent
                (nestedLines.length + 1) (k + 1)
              if !deepNestedLines.isEmpty then do
                let deepNested ← parseListItemDeepLoop fuel opts deepNestedLines []
                parseListItemNestedLoop fuel opts nestedLines m
                  (mapSet nestedResult nkey (.map deepNested))
              else
                parseListItemNestedLoop fuel opts nestedLines (k + 1)
                  (mapSet nestedResult nkey (.map []))
            else
              match parseValue nremaining with
              | .error _ => parseListItemNestedLoop fuel opts nestedLines (k + 1) nestedResult
              | .ok nvalue =>
                parseListItemNestedLoop fuel opts nestedLines (k + 1)
                  (mapSet nestedResult nkey nvalue)
    else .ok nestedResult
termination_by structural fuel

/-- The deepest field loop of `parseListItem` (one pass over the deep
nested lines; every failure is skipped). -/
def parseListItemDeepLoop (fuel : Nat) (opts : DecodeOptions) (deepLines : List LineInfo)
    (deepNested : Mapping) : Except DecodeError Mapping :=
  match fuel with
  | 0 => .error fuelErr
  | fuel + 1 =>
    match deepLines with
    | [] => .ok deepNested
    | deepLine :: rest =>
      match (newParser deepLine.content).parseKey with
      | .error _ => parseListItemDeepLoop fuel opts rest deepNested
      | .ok (dnkey, dnp) =>
        if dnp.peek = '[' then
          match parseArrayFromLineF fuel opts [deepLine] deepLine deepLine.indent 0 with
          | .error _ => parseListItemDeepLoop fuel opts rest deepNested
          | .ok (dnvalue, _) =>
            parseListItemDeepLoop fuel opts rest (mapSet deepNested dnkey dnvalue)
        else
          match dnp.expect ':' with
          | .error _ => parseListItemDeepLoop fuel opts rest deepNested
          | .ok dnp =>
            let dnp := dnp.skipWhitespace
            match parseValue (dnp.input.drop dnp.pos) with
            | .error _ => parseListItemDeepLoop fuel opts rest deepNested
            | .ok dnvalue =>
              parseListItemDeepLoop fuel opts rest (mapSet deepNested dnkey dnvalue)


termination_by structural fuel
end

/-! ## Top-level decode (`decode.go`, `structural_parser.go parse`) -/

/-- The fuel supplied to the structural parser: a cubic bound in the line
count, which dominates the mutual call count of every parse (each call
consumes at most a constant number of mutual steps per line-position pair). -/
def parserFuel (lines : List LineInfo) : Nat :=
  (lines.length + 2) ^ 3 + 100

/-- `structuralParser.parse`: empty line list yields an empty mapping,
strict-mode indentation validation runs first, then the root type
dispatches to the array / primitive / object parser. -/
def parseSP (opts : DecodeOptions) (lines : List LineInfo) : Except DecodeError Val :=
  match lines with
  | [] => .ok (.map [])
  | firstLine :: _ => do
    if opts.strict then
      let _ ← validateIndentation lines opts.indentSize
    match detectRootType lines with
    | .array => (parseArrayFromLineF (parserFuel lines) opts lines firstLine 0 0).map (·.1)
    | .primitive => parseValue firstLine.content
    | .object => (parseObjectF (parserFuel lines) opts lines 0 0).map (fun r => .map r.1)

/-- `decode`: the empty input short-circuits to an empty mapping before
option resolution; otherwise options are resolved and the preprocessed
lines are parsed. -/
def decode (input : Str) (opts : Option DecodeOptions) : Except DecodeError Val :=
  if input = [] then .ok (.map [])
  else
    let ropts := getDecodeOptions opts
    let sp := preprocessLines input
    parseSP ropts sp

/-! ## Concrete inputs and expected values used by the theorems below -/

/-- A document nesting mappings `depth` levels deep: `k:` lines at
indentation `0, 2, 4, …` with `k: 1` innermost. -/
def deepGo (depth : Nat) : Nat → Nat → Str
  | _, 0 => []
  | i, fuel + 1 =>
    if i + 1 = depth then spaces (2 * i) ++ chars "k: 1"
    else spaces (2 * i) ++ chars "k:" ++ chars "\n" ++ deepGo depth (i + 1) fuel

def deepInput (depth : Nat) : Str := deepGo depth 0 (depth + 1)

/-- The mapping nested `depth` levels deep with `1` innermost. -/
def deepValue : Nat → Val
  | 0 => .int 1
  | depth + 1 => .map [(chars "k", deepValue depth)]

/-- A list array whose single item has a field `k` followed by `n`
more-indented lines. -/
def listDeepInput (n : Nat) : Str :=
  chars "a[1]:\n  - b: 1\n    k:\n" ++
    joinWith (chars "\n") (List.replicate n (chars "      x: 1"))

/-- The nested mapping `{p₁: {p₂: … {pₖ: v}}}` a dotted path expands to. -/
def nestedSingleton (v : Val) : List Str → Mapping
  | [] => []
  | [k] => [(k, v)]
  | k :: rest => [(k, .map (nestedSingleton v rest))]

/-- The `users` example value of the specification (two mappings with keys
`name`/`age` and scalar values). -/
def usersVal : Val :=
  .map [(chars "users", .arr [
    .map [(chars "name", .str (chars "Alice")), (chars "age", .int 30)],
    .map [(chars "name", .str (chars "Bob")), (chars "age", .int 25)]])]

/-! ## Helper lemmas -/

lemma splitOnChar_ne_nil (sep : Char) (s : Str) : splitOnChar sep s ≠ [] := by
  cases s with
  | nil => simp [splitOnChar]
  | cons c cs =>
    simp only [splitOnChar]
    split
    · simp
    · cases h : splitOnChar sep cs <;> simp

/-- A valid bare identifier is non-empty. -/
lemma isValidIdentifier_ne_nil {p : Str} (h : isValidIdentifier p = true) : p ≠ [] := by
  cases p with
  | nil => simp [isValidIdentifier] at h
  | cons c cs => simp

/-- A valid bare identifier contains no dot. -/
lemma isValidIdentifier_no_dot {p : Str} (h : isValidIdentifier p = true) :
    ∀ c ∈ p, c ≠ '.' := by
  cases p with
  | nil => intro c hc; exact absurd hc (List.not_mem_nil c)
  | cons c0 cs =>
    simp only [isValidIdentifier, Bool.and_eq_true] at h
    obtain ⟨h0, hrest⟩ := h
    intro c hc
    rw [List.mem_cons] at hc
    rcases hc with rfl | hc
    · intro hdot
      rw [hdot] at h0
      revert h0
      decide
    · have hch := List.all_eq_true.mp hrest c hc
      intro hdot
      rw [hdot] at hch
      revert hch
      decide

/-- Splitting a string free of the separator yields the one-piece list. -/
lemma splitOnChar_eq_single {sep : Char} {p : Str} (h : ∀ c ∈ p, c ≠ sep) :
    splitOnChar sep p = [p] := by
  induction p with
  | nil => rfl
  | cons c cs ih =>
    have hc : c ≠ sep := h c (List.mem_cons_self c cs)
    have ih' := ih (fun x hx => h x (List.mem_cons_of_mem c hx))
    simp [splitOnChar, hc, ih']

/-- Splitting past a separator-free piece peels it off as the head. -/
lemma splitOnChar_append_sep {sep : Char} {p : Str} (rest : Str)
    (h : ∀ c ∈ p, c ≠ sep) :
    splitOnChar sep (p ++ sep :: rest) = p :: splitOnChar sep rest := by
  induction p with
  | nil => simp [splitOnChar]
  | cons c cs ih =>
    have hc : c ≠ sep := h c (List.mem_cons_self c cs)
    have ih' := ih (fun x hx => h x (List.mem_cons_of_mem c hx))
    simp [splitOnChar, hc, ih']

/-- Splitting on `.` inverts joining with `"."` when no part contains a
dot. -/
lemma splitOnChar_joinWith {parts : List Str}
    (hne : parts ≠ []) (h : ∀ p ∈ parts, ∀ c ∈ p, c ≠ '.') :
    splitOnChar '.' (joinWith (chars ".") parts) = parts := by
  induction parts with
  | nil => exact absurd rfl hne
  | cons p rest ih =>
    cases rest with
    | nil => exact splitOnChar_eq_single (h p (List.mem_cons_self p []))
    | cons q rest' =>
      have hjoin : joinWith (chars ".") (p :: q :: rest') =
          p ++ '.' :: joinWith (chars ".") (q :: rest') := by
        show p ++ chars "." ++ joinWith (chars ".") (q :: rest') = _
        rw [List.append_assoc]
        rfl
      rw [hjoin, splitOnChar_append_sep _ (h p (List.mem_cons_self p _)),
        ih (by simp) (fun s hs => h s (List.mem_cons_of_mem p hs))]

/-- When every path part is a valid identifier, the trailing-dot fixup is
the identity (the last part is non-empty). -/
lemma handleTrailingDotInPath_of_valid (parts : List Str) (v : Val)
    (hne : parts ≠ []) (hall : parts.all isValidIdentifier = true) :
    handleTrailingDotInPath parts v = (parts, v) := by
  have hlastvalid :=
    List.all_eq_true.mp hall (parts.getLast hne) (List.getLast_mem hne)
  have hlne : parts.getLast hne ≠ [] := isValidIdentifier_ne_nil hlastvalid
  obtain ⟨lc, lcs, hcons⟩ := List.exists_cons_of_ne_nil hlne
  have hl : parts.getLast? = some (lc :: lcs) := by
    rw [List.getLast?_eq_getLast parts hne, hcons]
  unfold handleTrailingDotInPath
  rw [hl]

/-- Expanding the dotted join of valid identifier parts into an empty
target produces exactly the nested singleton mapping. -/
lemma expandDottedKey_nested :
    ∀ (parts : List Str) (fuel : Nat) (v : Val) (opts : DecodeOptions),
      parts ≠ [] → parts.all isValidIdentifier = true →
      2 * parts.length ≤ fuel →
      expandDottedKey fuel opts (joinWith (chars ".") parts) v [] =
        Except.ok (nestedSingleton v parts) := by
  intro parts
  induction parts with
  | nil =>
    intro fuel v opts hne
    exact absurd rfl hne
  | cons k rest ih =>
    intro fuel v opts _ hall hfuel
    simp only [List.length_cons] at hfuel
    obtain ⟨f, rfl⟩ : ∃ f, fuel = f + 2 := ⟨fuel - 2, by omega⟩
    have hvalid : ∀ p ∈ k :: rest, isValidIdentifier p = true :=
      fun p hp => List.all_eq_true.mp hall p hp
    have hkvalid : isValidIdentifier k = true := hvalid k (List.mem_cons_self k rest)
    have hknil : k ≠ [] := isValidIdentifier_ne_nil hkvalid
    have hsplit : splitOnChar '.' (joinWith (chars ".") (k :: rest)) = k :: rest :=
      splitOnChar_joinWith (by simp)
        (fun p hp => isValidIdentifier_no_dot (hvalid p hp))
    have htrail : handleTrailingDotInPath (k :: rest) v = (k :: rest, v) :=
      handleTrailingDotInPath_of_valid _ _ (by simp) hall
    cases rest with
    | nil =>
      simp [expandDottedKey, hsplit, htrail, handleDirectKeyAssignment,
        checkKeyAssignmentConflict, mapGet, mapSet, nestedSingleton, hknil,
        Except.bind, bind, pure, Except.pure]
    | cons q rest' =>
      have hrestall : (q :: rest').all isValidIdentifier = true := by
        simp only [List.all_cons, Bool.and_eq_true] at hall ⊢
        exact hall.2
      have hih : expandDottedKey f opts (joinWith (chars ".") (q :: rest')) v [] =
          Except.ok (nestedSingleton v (q :: rest')) :=
        ih f v opts (by simp) hrestall
          (by simp only [List.length_cons] at hfuel ⊢; omega)
      simp only [expandDottedKey]
      rw [hsplit]
      simp only [List.isEmpty_cons, Bool.false_eq_true, if_false]
      rw [htrail]
      simp only [expandMultiPartPath, List.isEmpty_cons, Bool.false_eq_true, if_false,
        if_neg hknil, getOrCreateNestedMap, mapGet, mapSet, List.find?_nil,
        Option.map_none, List.any_nil, Bool.false_eq_true, List.nil_append,
        Except.bind, bind, hih]
      simp [mapSet, nestedSingleton]
      rw [hih]

/-- An indentation offense on a non-blank line (tab in the leading
whitespace, or a positive indent that is not a multiple of the configured
size) makes strict validation fail. -/
lemma validateIndentation_error_of_offense (size : Int) :
    ∀ lines : List LineInfo,
      (∃ l ∈ lines, l.isBlank = false ∧
        (containsChar (leadingWhitespaceOf l.original) '\t' = true ∨
          (0 < l.indent ∧ Int.tmod (l.indent : Int) size ≠ 0))) →
      ∃ e, validateIndentation lines size = .error e := by
  intro lines
  induction lines with
  | nil =>
    rintro ⟨l, hl, _⟩
    exact absurd hl (List.not_mem_nil l)
  | cons line rest ih =>
    rintro ⟨l, hl, hblank, hoff⟩
    rw [List.mem_cons] at hl
    by_cases hb : line.isBlank
    · have hlr : l ∈ rest := by
        rcases hl with rfl | hl
        · rw [hb] at hblank; cases hblank
        · exact hl
      obtain ⟨e, he⟩ := ih ⟨l, hlr, hblank, hoff⟩
      exact ⟨e, by simp [validateIndentation, hb, he]⟩
    · by_cases htab : containsChar (leadingWhitespaceOf line.original) '\t'
      · refine ⟨{ message := chars "tab characters not allowed in indentation (strict mode)",
                  line := line.lineNumber, context := line.original }, ?_⟩
        simp [validateIndentation, hb, htab]
      · by_cases hmod : 0 < line.indent ∧ Int.tmod (line.indent : Int) size ≠ 0
        · refine ⟨{ message := chars "indentation must be multiple of indent size (strict mode)",
                    line := line.lineNumber, context := line.original }, ?_⟩
          simp [validateIndentation, hb, htab, hmod.1, hmod.2]
        · have hlr : l ∈ rest := by
            rcases hl with rfl | hl
            · rcases hoff with h | h
              · exact absurd h htab
              · exact absurd h hmod
            · exact hl
          obtain ⟨e, he⟩ := ih ⟨l, hlr, hblank, hoff⟩
          refine ⟨e, ?_⟩
          rw [Decidable.not_and_iff_or_not] at hmod
          rcases hmod with h | h
          · simp at h
            simp [validateIndentation, hb, htab, h, he]
          · simp at h
            simp [validateIndentation, hb, htab, h, he]

/-! ## Claim theorems -/

set_option maxRecDepth 100000

/-- C1 (counterexample): the universal round-trip fails.  The NaN/Inf-free
value `{"a": [{}]}` (a sequence with one empty-mapping element, classified
Tabular with an empty key set) encodes to `"a[1]{}:\n  "`; its only data
row is blank, the line preprocessor strips it, and strict decoding of the
encoding fails with a tabular length mismatch instead of yielding
`normalize(v)`. -/
theorem c1_roundtrip_counterexample :
    normalize (Val.map [(chars "a", Val.arr [Val.map []])]) =
      Val.map [(chars "a", Val.arr [Val.map []])] ∧
    marshal (Val.map [(chars "a", Val.arr [Val.map []])]) none = .ok (chars "a[1]{}:\n  ") ∧
    decode (chars "a[1]{}:\n  ") none =
      .error { message := chars "tabular array length mismatch: expected 1 rows, got 0 (pos=1, total lines=1, baseIndent=0)" } :=
  ⟨rfl, rfl, rfl⟩

/-- C1 (amended): round-tripping holds for the six quoting test strings —
for each `s` in `{"", "true", "42", " lead", "a,b", "a\nb"}`, encoding under
default options and decoding the result under default options returns `s`
— but not for every NaN/Inf-free value (see the counterexample). -/
theorem c1_string_roundtrip :
    (marshal (.str (chars "")) none = .ok (chars "\"\"") ∧
      decode (chars "\"\"") none = .ok (.str (chars ""))) ∧
    (marshal (.str (chars "true")) none = .ok (chars "\"true\"") ∧
      decode (chars "\"true\"") none = .ok (.str (chars "true"))) ∧
    (marshal (.str (chars "42")) none = .ok (chars "\"42\"") ∧
      decode (chars "\"42\"") none = .ok (.str (chars "42"))) ∧
    (marshal (.str (chars " lead")) none = .ok (chars "\" lead\"") ∧
      decode (chars "\" lead\"") none = .ok (.str (chars " lead"))) ∧
    (marshal (.str (chars "a,b")) none = .ok (chars "\"a,b\"") ∧
      decode (chars "\"a,b\"") none = .ok (.str (chars "a,b"))) ∧
    (marshal (.str (chars "a\nb")) none = .ok (chars "\"a\\nb\"") ∧
      decode (chars "\"a\\nb\"") none = .ok (.str (chars "a\nb"))) :=
  ⟨⟨rfl, rfl⟩, ⟨rfl, rfl⟩, ⟨rfl, rfl⟩, ⟨rfl, rfl⟩, ⟨rfl, rfl⟩, ⟨rfl, rfl⟩⟩

/-- C5 (counterexample): a parse failure inside a multi-line list-item
object is silently swallowed even in strict mode.  The value of field `c`
is an unterminated string — `parseValue` rejects it — yet the strict
decode succeeds and simply omits `c`, returning a partial item. -/
theorem c5_swallowed_error_counterexample :
    parseValue (chars "\"unterminated") =
      .error { message := chars "unterminated string: missing closing quote" } ∧
    decode (chars "a[1]:\n  - b: 1\n    c: \"unterminated") none =
      .ok (.map [(chars "a", .arr [.map [(chars "b", .int 1)]])]) :=
  ⟨rfl, rfl⟩

/-- C4: with `expandPaths=safe`, a dotted key all of whose dot-segments
are valid bare identifiers expands into nested mappings — expanding the
joined path of any such segment list into an empty target yields exactly
the nested singleton mapping — and concretely
`decode("a.b.c: 1", expandPaths=safe)` yields `{"a":{"b":{"c":1}}}`. -/
theorem c4_safe_path_expansion (parts : List Str) (v : Val) (opts : DecodeOptions)
    (fuel : Nat) (h1 : 2 ≤ parts.length)
    (h2 : parts.all isValidIdentifier = true)
    (h3 : 2 * parts.length ≤ fuel) :
    expandDottedKey fuel opts (joinWith (chars ".") parts) v [] =
      .ok (nestedSingleton v parts) ∧
    decode (chars "a.b.c: 1") (some { expandPaths := chars "safe" }) =
      .ok (.map [(chars "a", .map [(chars "b", .map [(chars "c", .int 1)])])]) :=
  ⟨expandDottedKey_nested parts fuel v opts
      (by intro h; rw [h] at h1; simp at h1) h2 h3,
    rfl⟩

/-- Witness for `c4_safe_path_expansion` at the three-segment path
`a.b.c` with value `1`. -/
theorem c4_safe_path_expansion_witness :
    expandDottedKey 6 { expandPaths := chars "safe" }
        (joinWith (chars ".") [chars "a", chars "b", chars "c"]) (.int 1) [] =
      .ok (nestedSingleton (.int 1) [chars "a", chars "b", chars "c"]) ∧
    decode (chars "a.b.c: 1") (some { expandPaths := chars "safe" }) =
      .ok (.map [(chars "a", .map [(chars "b", .map [(chars "c", .int 1)])])]) :=
  c4_safe_path_expansion [chars "a", chars "b", chars "c"] (.int 1)
    { expandPaths := chars "safe" } 6 (by decide) (by decide) (by decide)

/-- C5 (amended): at the object level a failure from parsing a key–value
pair aborts the enclosing line loop immediately with that same error — no
partial result — and concretely an unterminated string value at the top
level aborts the whole decode.  The exception (beyond the specified
non-strict fallbacks) is the list-item field loop, which swallows such
failures (see `c5_swallowed_error_counterexample`). -/
theorem c5_object_level_error_propagation (fuel : Nat) (opts : DecodeOptions)
    (lines : List LineInfo) (baseIndent pos : Nat) (result : Mapping)
    (e : DecodeError) (hpos : pos < lines.length)
    (hline : shouldSkipObjectLine (lineAt lines pos) baseIndent = .parseThisLine)
    (herr : handleObjectKeyValuePairF fuel opts lines (lineAt lines pos) baseIndent pos result
      = .error e) :
    parseObjectLoop (fuel + 1) opts lines baseIndent pos result = .error e ∧
    decode (chars "c: \"unterminated") none =
      .error { message := chars "unterminated string: missing closing quote" } := by
  refine ⟨?_, rfl⟩
  simp only [parseObjectLoop, if_pos hpos, hline, herr]
  rfl

/-- Witness for `c5_object_level_error_propagation` on the single-line
document `c: "unterminated` at the first line. -/
theorem c5_object_level_error_propagation_witness :
    parseObjectLoop 51 (getDecodeOptions none)
        (preprocessLines (chars "c: \"unterminated")) 0 0 [] =
      .error { message := chars "unterminated string: missing closing quote" } ∧
    decode (chars "c: \"unterminated") none =
      .error { message := chars "unterminated string: missing closing quote" } :=
  c5_object_level_error_propagation 50 (getDecodeOptions none)
    (preprocessLines (chars "c: \"unterminated")) 0 0 []
    { message := chars "unterminated string: missing closing quote" }
    (by decide) rfl rfl

/-- C6 (counterexample): an input nesting mappings 110 levels deep — well
beyond "approximately 100" — decodes successfully under default strict
options: object parsing enforces no depth guard. -/
theorem c6_deep_nesting_accepted :
    decode (deepInput 110) none = .ok (deepValue 110) := rfl

/-- C6 (amended): the only depth-like guard sits in list-item parsing and
counts lines, not nesting levels: a list-item field whose nested block
spans more than 100 lines is rejected with "nesting depth exceeded limit",
while 100 lines pass; general nesting depth is unbounded (see the
counterexample). -/
theorem c6_list_item_line_guard :
    decode (listDeepInput 101) none =
      .error { message := chars "nesting depth exceeded limit" } ∧
    decode (listDeepInput 100) none =
      .ok (.map [(chars "a", .arr [.map [(chars "b", .int 1),
        (chars "k", .map [(chars "x", .int 1)])]])]) :=
  ⟨rfl, rfl⟩

/-- C2: every non-empty sequence whose elements are all mappings sharing
one key set (order-independent, via `sameKeys`) with all-scalar values is
classified Tabular by `detectArrayFormat` — never List — and the `users`
example encodes to exactly `"users[2]{age,name}:\n  30,Alice\n  25,Bob"`
(keys sorted). -/
theorem c2_tabular_classification (vs : List Val) (h1 : vs ≠ [])
    (h2 : allMaps (.arr vs) = true) (h3 : sameKeys (.arr vs) = true)
    (h4 : vs.all mapValuesAllPrim = true) :
    detectArrayFormat vs = .tabular ∧ detectArrayFormat vs ≠ .list ∧
    marshal usersVal none = .ok (chars "users[2]{age,name}:\n  30,Alice\n  25,Bob") := by
  have hform : detectArrayFormat vs = .tabular := by
    obtain ⟨v, rest, rfl⟩ := List.exists_cons_of_ne_nil h1
    have hmapv : isMap v = true := by
      simp only [allMaps, List.all_cons, Bool.and_eq_true] at h2
      exact h2.1
    have hprim : isPrimitive v = false := by
      cases v <;> simp_all [isMap, isPrimitive]
    have hallprim : allPrimitives (Val.arr (v :: rest)) = false := by
      simp [allPrimitives, hprim]
    simp [detectArrayFormat, hallprim, h2, h3, h4]
  exact ⟨hform, by simp [hform], rfl⟩

/-- Witness for `c2_tabular_classification` at the `users` example
sequence. -/
theorem c2_tabular_classification_witness :
    detectArrayFormat
        [Val.map [(chars "name", .str (chars "Alice")), (chars "age", .int 30)],
         Val.map [(chars "name", .str (chars "Bob")), (chars "age", .int 25)]] = .tabular ∧
    detectArrayFormat
        [Val.map [(chars "name", .str (chars "Alice")), (chars "age", .int 30)],
         Val.map [(chars "name", .str (chars "Bob")), (chars "age", .int 25)]] ≠ .list ∧
    marshal usersVal none = .ok (chars "users[2]{age,name}:\n  30,Alice\n  25,Bob") :=
  c2_tabular_classification _ (List.cons_ne_nil _ _) rfl rfl rfl

/-- C3: in strict mode, whenever an array header declares a numeric length
and the parsed element/row count differs from it, decoding fails with a
length-mismatch error — in all three array forms (inline via
`parseInlineArray`, list via `validateListArrayLength`, tabular via
`validateTabularArrayLength`) — and in particular
`decode("items[3]: 1,2", strict=true)` returns the inline length-mismatch
error. -/
theorem c3_strict_length_enforcement (opts : DecodeOptions) (hstrict : opts.strict = true)
    (lengthStr : Str) (hnum : extractNumericLength lengthStr ≠ [])
    (p : Parser) (delimiter : Str) (vals : List Val)
    (hvals : parseInlineArrayParts (splitRowByDelimiter (p.input.drop p.pos)
        (if delimiter = [] then commaS else delimiter)) = .ok vals)
    (hlen : vals.length ≠ atoiClamped (extractNumericLength lengthStr))
    (itemCount rowCount : Nat)
    (hitem : itemCount ≠ atoiClamped (extractNumericLength lengthStr))
    (hrow : rowCount ≠ atoiClamped (extractNumericLength lengthStr)) :
    parseInlineArray opts p lengthStr delimiter =
      .error { message := chars "array length mismatch: expected " ++
        natToChars (atoiClamped (extractNumericLength lengthStr)) ++ chars ", got " ++
        natToChars vals.length } ∧
    validateListArrayLength opts lengthStr itemCount =
      .error { message := chars "list array length mismatch: expected " ++
        natToChars (atoiClamped (extractNumericLength lengthStr)) ++ chars ", got " ++
        natToChars itemCount } ∧
    validateTabularArrayLength opts lengthStr rowCount =
      .error { message := chars "tabular array length mismatch: expected " ++
        natToChars (atoiClamped (extractNumericLength lengthStr)) ++ chars " rows, got " ++
        natToChars rowCount } ∧
    decode (chars "items[3]: 1,2") (some { strict := true }) =
      .error { message := chars "array length mismatch: expected 3, got 2" } := by
  have hne : lengthStr ≠ [] := by
    intro h
    rw [h] at hnum
    exact hnum rfl
  refine ⟨?_, ?_, ?_, rfl⟩
  · simp only [parseInlineArray, hvals, Except.bind, bind, hne, hstrict, hnum, hlen]
    simp [hne, hstrict, hnum, hlen]
  · simp [validateListArrayLength, hne, hstrict, hnum, hitem]
  · simp [validateTabularArrayLength, hne, hstrict, hnum, hrow]

/-- Witness for `c3_strict_length_enforcement`: the header `[3]` against
the two-element body `1,2`. -/
theorem c3_strict_length_enforcement_witness :
    parseInlineArray { keys := 0, strict := true, indentSize := 2, expandPaths := chars "off" }
        (newParser (chars "1,2")) (chars "3") [] =
      .error { message := chars "array length mismatch: expected " ++
        natToChars (atoiClamped (extractNumericLength (chars "3"))) ++ chars ", got " ++
        natToChars ([Val.int 1, Val.int 2] : List Val).length } ∧
    validateListArrayLength { keys := 0, strict := true, indentSize := 2, expandPaths := chars "off" }
        (chars "3") 2 =
      .error { message := chars "list array length mismatch: expected " ++
        natToChars (atoiClamped (extractNumericLength (chars "3"))) ++ chars ", got " ++
        natToChars 2 } ∧
    validateTabularArrayLength { keys := 0, strict := true, indentSize := 2, expandPaths := chars "off" }
        (chars "3") 2 =
      .error { message := chars "tabular array length mismatch: expected " ++
        natToChars (atoiClamped (extractNumericLength (chars "3"))) ++ chars " rows, got " ++
        natToChars 2 } ∧
    decode (chars "items[3]: 1,2") (some { strict := true }) =
      .error { message := chars "array length mismatch: expected 3, got 2" } :=
  c3_strict_length_enforcement
    { keys := 0, strict := true, indentSize := 2, expandPaths := chars "off" } rfl
    (chars "3") (by decide) (newParser (chars "1,2")) [] [Val.int 1, Val.int 2] rfl
    (by decide) 2 2 (by decide) (by decide)

/-- C9: decoding the empty string, or any input all of whose lines are
blank, succeeds with an empty mapping under every option setting — the
empty input short-circuits before option resolution, and an all-blank
input is stripped to an empty line list. -/
theorem c9_blank_input_empty_mapping (input : Str) (opts : Option DecodeOptions)
    (h : ∀ l ∈ splitOnChar '\n' input, trimSpace l = []) :
    decode input opts = .ok (.map []) := by
  by_cases hi : input = []
  · simp [decode, hi]
  · have hpre : preprocessLines input = [] := by
      simp only [preprocessLines, List.reverse_eq_nil_iff, List.dropWhile_eq_nil_iff]
      intro x hx
      rw [List.mem_reverse] at hx
      obtain ⟨⟨i, line⟩, hmem, rfl⟩ := List.mem_map.mp hx
      have hline : line ∈ splitOnChar '\n' input :=
        List.get?_mem (List.mem_enum_iff_get?.mp hmem)
      simp [h line hline]
    simp [decode, hi, hpre, parseSP]

/-- Witness for `c9_blank_input_empty_mapping` at the blank input
`" \n\t"` with explicitly supplied (strict) options. -/
theorem c9_blank_input_empty_mapping_witness :
    decode (chars " \n\t") (some { strict := true, indentSize := 7 }) = .ok (.map []) :=
  c9_blank_input_empty_mapping (chars " \n\t") (some { strict := true, indentSize := 7 })
    (by decide)

/-- C8: decoding the single line `items[0]:` yields `{"items": []}` under
default (strict) options. -/
theorem c8_empty_array_marker :
    decode (chars "items[0]:") none = .ok (.map [(chars "items", .arr [])]) := rfl

/-- C10: resolving nil options yields strict mode with indent size 2 and
path expansion off, while a caller-supplied zero-value options struct
resolves to non-strict mode with the same other defaults — the two
"default" paths disagree on strictness. -/
theorem c10_default_options_divergence :
    getDecodeOptions none =
      { keys := 0, strict := true, indentSize := 2, expandPaths := chars "off" } ∧
    (getDecodeOptions (some {})).strict = false ∧
    (getDecodeOptions (some {})).indentSize = 2 ∧
    (getDecodeOptions (some {})).expandPaths = chars "off" ∧
    (getDecodeOptions none).strict ≠ (getDecodeOptions (some {})).strict :=
  ⟨rfl, rfl, rfl, rfl, by decide⟩

/-- C7 (amended): strict-mode indentation validation runs on the
preprocessed lines before structural parsing, but it skips blank lines.
If some NON-BLANK line has a tab in its leading whitespace, or a positive
indent that is not a multiple of the resolved indent size, decode fails;
a blank line with a tab in its indentation is not rejected (see
`c7_blank_line_tab_counterexample`). -/
theorem c7_strict_indentation_enforced (input : Str) (opts : Option DecodeOptions)
    (h1 : (getDecodeOptions opts).strict = true)
    (h2 : ∃ l ∈ preprocessLines input, l.isBlank = false ∧
      (containsChar (leadingWhitespaceOf l.original) '\t' = true ∨
        (0 < l.indent ∧
          Int.tmod (l.indent : Int) (getDecodeOptions opts).indentSize ≠ 0))) :
    ∃ e, decode input opts = .error e := by
  obtain ⟨e, he⟩ := validateIndentation_error_of_offense _ _ h2
  have hlines : preprocessLines input ≠ [] := by
    intro h0
    rw [h0] at h2
    obtain ⟨l, hl, _⟩ := h2
    exact absurd hl (List.not_mem_nil l)
  have hne : input ≠ [] := by
    intro h
    rw [h] at hlines
    exact hlines rfl
  refine ⟨e, ?_⟩
  simp only [decode]
  rw [if_neg hne]
  obtain ⟨l0, rest, hsp⟩ := List.exists_cons_of_ne_nil hlines
  rw [hsp] at he ⊢
  simp only [parseSP, h1, he, if_true]
  rfl

/-- Witness for `c7_strict_indentation_enforced`: the tab-indented input
`"\ta: 1"` under nil (hence strict) options is rejected. -/
theorem c7_strict_indentation_enforced_witness :
    (getDecodeOptions none).strict = true ∧
    ∃ e, decode (chars "\ta: 1") none = .error e :=
  ⟨rfl, c7_strict_indentation_enforced (chars "\ta: 1") none rfl (by decide)⟩

/-- C7 counterexample to the claim as stated: in the input
`"a: 1\n\t\nb: 2"` the middle line's indentation is a tab character, yet
strict decoding succeeds, because `validateIndentation` skips blank
lines. -/
theorem c7_blank_line_tab_counterexample :
    (∃ l ∈ preprocessLines (chars "a: 1\n\t\nb: 2"),
      containsChar (leadingWhitespaceOf l.original) '\t' = true) ∧
    decode (chars "a: 1\n\t\nb: 2") none =
      .ok (.map [(chars "a", .int 1), (chars "b", .int 2)]) :=
  ⟨by decide, rfl⟩

end Toon
